import Mathlib

/-!
Verification development for the CEW ai-service retrieval pipeline.

This file gives a shallow embedding, in Lean 4, of the retrieval-side logic of
`app/services/chroma_service.py`, `app/services/rag_service.py`,
`app/utils/text_utils.py` and `app/utils/language_detect.py`, and proves
properties of that embedding.

Modelling conventions:
* Python strings are modelled as `List Char` (`Str`); `str.lower`, `str.strip`
  and the specific regular expressions used by the code are modelled by
  explicit character-level scanners that implement the regex semantics
  (word boundaries `\b` relative to Python's `\w`, greedy/lazy repetition and
  the lookaheads actually occurring in the code) over the character repertoire
  the service deals with (ASCII plus the Turkish letters that appear in the
  code and data).
* Floating point scores are modelled as exact rationals `ℚ`; the score
  arithmetic performed by the code (`1 - distance`, `* 0.5`, `* 0.3`, additive
  boosts) is exact in this model.
* External dependencies (the Chroma engine, the embedding model, the LLM) are
  opaque: their outcomes are parameters of the embedded functions, with
  `Except` used for calls the Python code wraps (or fails to wrap) in
  `try/except`.
* Two scanners that restart at a jumped-ahead position (`kvScan`,
  `subInvScan`) take an explicit fuel argument for structural termination;
  the wrappers pass fuel `length + 1`, which is enough for every input since
  each step consumes at least one character.
-/

/-- Python strings, modelled as lists of characters. -/
abbrev Str := List Char

/-- Conversion from a Lean string literal to the model type. -/
def strOf (s : String) : Str := s.toList

/-- ASCII decimal digit test (Python `\d` restricted to ASCII). -/
def isAsciiDigit (c : Char) : Bool := 48 ≤ c.toNat && c.toNat ≤ 57

/-- ASCII alphanumeric test, i.e. the character class `[a-zA-Z0-9]`. -/
def isAsciiAlnum (c : Char) : Bool :=
  (48 ≤ c.toNat && c.toNat ≤ 57) || (65 ≤ c.toNat && c.toNat ≤ 90) ||
    (97 ≤ c.toNat && c.toNat ≤ 122)

/-- The Turkish letters appearing in the code and its data (both cases). -/
def turkishLetters : List Char :=
  ['ş', 'Ş', 'ğ', 'Ğ', 'ü', 'Ü', 'ç', 'Ç', 'ö', 'Ö', 'ı', 'İ']

/-- Python's `\w` word-character test, over the repertoire the service uses:
ASCII alphanumerics, the underscore and the Turkish letters. -/
def isWordChar (c : Char) : Bool :=
  isAsciiAlnum c || c = '_' || turkishLetters.contains c

/-- Python whitespace (`\s`, `str.strip`): space, tab, LF, CR, VT, FF. -/
def isSpaceChar (c : Char) : Bool :=
  c = ' ' || c = '\t' || c = '\n' || c = '\r' || c.toNat = 11 || c.toNat = 12

/-- Python `str.lower` for one character, over the used repertoire.
`'İ'` (U+0130) lowers to the two characters `i` followed by the combining dot
above (U+0307), exactly as in CPython. -/
def lowerChar (c : Char) : Str :=
  if c = 'İ' then ['i', Char.ofNat 775]
  else if 65 ≤ c.toNat && c.toNat ≤ 90 then [Char.ofNat (c.toNat + 32)]
  else if c = 'Ş' then ['ş']
  else if c = 'Ğ' then ['ğ']
  else if c = 'Ü' then ['ü']
  else if c = 'Ç' then ['ç']
  else if c = 'Ö' then ['ö']
  else [c]

/-- Python `str.lower` on a string. -/
def pyLower (s : Str) : Str := s.flatMap lowerChar

/-- Python `str.lstrip()`. -/
def lstripStr (s : Str) : Str := s.dropWhile isSpaceChar

/-- Python `str.rstrip()`. -/
def rstripStr (s : Str) : Str := (s.reverse.dropWhile isSpaceChar).reverse

/-- Python `str.strip()`. -/
def stripStr (s : Str) : Str := lstripStr (rstripStr s)

/-- Python `needle in hay` (substring containment). -/
def inStr (needle hay : Str) : Bool := hay.tails.any (fun t => needle.isPrefixOf t)

/-- Python `hay.startswith(needle)`. -/
def startsWithStr (needle hay : Str) : Bool := needle.isPrefixOf hay

/-- Boundary test used for `\b` next to a word character: the neighbouring
character, when there is one, must not be a word character. -/
def boundaryHead (s : Str) : Bool :=
  match s.head? with
  | none => true
  | some c => !isWordChar c

/-- One step of the word-bounded alternative search: does one of the
alternatives (each starting and ending with a word character) match at the
current position, with a word boundary on both sides?  `prevOk` says the
previous character, if any, is not a word character. -/
def altHitAt (alts : List Str) (prevOk : Bool) (s : Str) : Bool :=
  prevOk && alts.any (fun w => w.isPrefixOf s && boundaryHead (s.drop w.length))

/-- Scanner for Python `re.search(r"\b(alt1|alt2|...)\b", s)` where every
alternative starts and ends with a word character. -/
def wordHitAux (alts : List Str) : Bool → Str → Bool
  | _, [] => false
  | prevOk, c :: rest => altHitAt alts prevOk (c :: rest) || wordHitAux alts (!isWordChar c) rest

/-- Python `re.search(r"\b(alt1|...)\b", s) is not None`. -/
def containsWordAlt (alts : List Str) (s : Str) : Bool := wordHitAux alts true s

/-- Tokenizer for Python `re.findall(r"\b[class]+\b", s)` where the class is a
set of word characters: the maximal runs of class characters whose neighbours
(if any) are not word characters.  `prevOk` tracks whether the previous
character is absent or not a word character; class characters are word
characters, so after a run the tracker is `false`. -/
def tokensAux (p : Char → Bool) (fuel : Nat) : Bool → Str → List Str :=
  match fuel with
  | 0 => fun _ _ => []
  | fuel + 1 => fun prevOk s =>
    match s with
    | [] => []
    | c :: rest =>
      if p c then
        let run := c :: rest.takeWhile p
        let rest2 := rest.dropWhile p
        if prevOk && boundaryHead rest2 then run :: tokensAux p fuel false rest2
        else tokensAux p fuel false rest2
      else tokensAux p fuel (!isWordChar c) rest

/-- `re.findall(r"\b[class]+\b", s)` for a class of word characters. -/
def tokensBounded (p : Char → Bool) (s : Str) : List Str :=
  tokensAux p (s.length + 1) true s

/-- Decimal digits to the natural number they denote (Python `int(...)` on a
digit string; leading zeros allowed). -/
def digitsToNat (ds : Str) : Nat :=
  ds.foldl (fun acc c => acc * 10 + (c.toNat - 48)) 0

/-- Python `str(n)` for a natural number. -/
def natToStr (n : Nat) : Str := (toString n).toList

/-- Python `str(n)` for an integer. -/
def intToStr (n : Int) : Str := (toString n).toList

/-- Python `", ".join(...)`-style joining. -/
def joinStr (sep : Str) (parts : List Str) : Str := List.intercalate sep parts

/-- Order-preserving de-duplication (the `seen`-set idiom used in the code). -/
def dedupStrs : List Str → List Str → List Str
  | _, [] => []
  | seen, s :: rest =>
    if s ∈ seen then dedupStrs seen rest else s :: dedupStrs (s :: seen) rest

/-- Code-point lexicographic strict order on strings (Python `<` on `str`). -/
def strLtB : Str → Str → Bool
  | [], [] => false
  | [], _ :: _ => true
  | _ :: _, [] => false
  | a :: as, b :: bs => a.toNat < b.toNat || (a = b && strLtB as bs)

/-- Python `sorted` on strings (stable; key is the string itself). -/
def sortStrs (l : List Str) : List Str :=
  List.insertionSort (fun x y => strLtB x y = true ∨ x = y) l

/-! ## `app/utils/language_detect.py` -/

/-- The Turkish lexicon of `language_detect.TURKISH_WORDS`. -/
def TURKISH_WORDS : List Str :=
  [strOf "ve", strOf "veya", strOf "için", strOf "ile", strOf "bu", strOf "bir",
   strOf "olan", strOf "olarak", strOf "da", strOf "de", strOf "mi", strOf "mı",
   strOf "ne", strOf "nasıl", strOf "neden", strOf "kaç", strOf "toplam",
   strOf "tarafından", strOf "göre", strOf "arasında", strOf "üzerinde",
   strOf "altında", strOf "sonra", strOf "önce", strOf "şu", strOf "hangi",
   strOf "kadar", strOf "değil", strOf "var", strOf "yok", strOf "evet",
   strOf "hayır", strOf "lütfen", strOf "teşekkür", strOf "merhaba",
   strOf "günaydın", strOf "iyi", strOf "kötü", strOf "büyük", strOf "küçük",
   strOf "çok", strOf "az", strOf "hepsi", strOf "hiç", strOf "bazı"]

/-- The characters of `TURKISH_CHARS_PATTERN` (`[şŞğĞüÜçÇöÖıİ]`). -/
def turkishSpecials : List Char := ['ş', 'Ş', 'ğ', 'Ğ', 'ü', 'Ü', 'ç', 'Ç', 'ö', 'Ö', 'ı', 'İ']

/-- The word alternatives of the three `turkish_patterns` regexes, pooled:
each regex is a word-bounded alternation, and the code only tests whether any
of them matches. -/
def turkishPatternAlts : List Str :=
  [strOf "ne kadar", strOf "kaç tane", strOf "kac tane", strOf "kac",
   strOf "toplam ne", strOf "toplam kac", strOf "hangi", strOf "nedir",
   strOf "yapıldı", strOf "yapılmış", strOf "tamamlandı", strOf "bitti",
   strOf "taşeron", strOf "işçi", strOf "metre", strOf "gün"]

/-- `language_detect.detect_language`: `"tr"` is modelled as `true`. -/
def detect_language (text : Str) : Bool :=
  if text = [] then false
  else
    let text_lower := pyLower text
    if text.any (fun c => turkishSpecials.contains c) then true
    else
      let words := dedupStrs [] (tokensBounded isWordChar text_lower)
      let hits := words.countP (fun w => decide (w ∈ TURKISH_WORDS))
      if 2 ≤ hits then true
      else turkishPatternAlts.any (fun p => containsWordAlt [p] text_lower)

/-- `language_detect.get_fallback_message` (argument `true` = Turkish). -/
def get_fallback_message (tr : Bool) : Str :=
  if tr then strOf "Bu bilgiyi mevcut kayıtlarda/belgelerde bulamıyorum."
  else strOf "I cannot find this information in the provided records/documents."

/-! ## `app/utils/text_utils.py` -/

/-- The English stop-word set of `text_utils.extract_keywords`. -/
def stop_words : List Str :=
  [strOf "a", strOf "an", strOf "the", strOf "is", strOf "are", strOf "was",
   strOf "were", strOf "be", strOf "been", strOf "being", strOf "have",
   strOf "has", strOf "had", strOf "do", strOf "does", strOf "did",
   strOf "will", strOf "would", strOf "could", strOf "should", strOf "may",
   strOf "might", strOf "must", strOf "shall", strOf "can", strOf "need",
   strOf "dare", strOf "ought", strOf "used", strOf "to", strOf "of",
   strOf "in", strOf "for", strOf "on", strOf "with", strOf "at", strOf "by",
   strOf "from", strOf "as", strOf "into", strOf "through", strOf "during",
   strOf "before", strOf "after", strOf "above", strOf "below",
   strOf "between", strOf "under", strOf "again", strOf "further",
   strOf "then", strOf "once", strOf "here", strOf "there", strOf "when",
   strOf "where", strOf "why", strOf "how", strOf "all", strOf "each",
   strOf "few", strOf "more", strOf "most", strOf "other", strOf "some",
   strOf "such", strOf "no", strOf "nor", strOf "not", strOf "only",
   strOf "own", strOf "same", strOf "so", strOf "than", strOf "too",
   strOf "very", strOf "just", strOf "and", strOf "but", strOf "if",
   strOf "or", strOf "because", strOf "until", strOf "while", strOf "what",
   strOf "which", strOf "who", strOf "this", strOf "that", strOf "these",
   strOf "those", strOf "i", strOf "me", strOf "my", strOf "myself",
   strOf "we", strOf "our", strOf "ours", strOf "ourselves", strOf "you",
   strOf "your", strOf "yours", strOf "yourself", strOf "he", strOf "him",
   strOf "his", strOf "himself", strOf "she", strOf "her", strOf "hers",
   strOf "herself", strOf "it", strOf "its", strOf "itself", strOf "they",
   strOf "them", strOf "their", strOf "theirs", strOf "themselves"]

/-- `text_utils.extract_keywords`: ASCII-alphanumeric tokens of the lowered
text (`\b[a-zA-Z0-9]+\b`), minus stop words and words of length ≤ 2. -/
def extract_keywords (text : Str) : List Str :=
  let words := tokensBounded isAsciiAlnum (pyLower text)
  words.filter (fun w => !decide (w ∈ stop_words) && decide (w.length > 2))

/-! ## Data model (`chunks` as stored / retrieved) -/

/-- The metadata fields of a chunk that the retrieval code reads.  A `none`
models an absent key; `some []` (empty string) is distinct from absent, since
Python distinguishes `None` from `""` in truthiness-based defaults. -/
structure Meta where
  doc_name : Option Str := none
  doc_type : Option Str := none
  section_type : Option Str := none
  page : Option Int := none
  sheet : Option Str := none
  table_num : Option Int := none
deriving DecidableEq

/-- A retrieval result: `{id, text, metadata, score}`. -/
structure Chunk where
  id : Str
  text : Str
  metadata : Meta
  score : ℚ
deriving DecidableEq

instance : Inhabited Meta := ⟨{}⟩

instance : Inhabited Chunk := ⟨⟨[], [], {}, 0⟩⟩

/-- A record of the store as returned by `collection.get` (no score). -/
structure StoreRec where
  id : Str
  text : Str
  metadata : Meta
deriving DecidableEq

/-- One row of the Chroma vector-query response: the engine returns a cosine
distance, which `search_documents` converts to a similarity. -/
structure VecRaw where
  id : Str
  text : Str
  metadata : Meta
  distance : ℚ
deriving DecidableEq

/-! ## `app/services/chroma_service.py`

The Chroma engine itself is external: `collection.query` is modelled by a
list of `VecRaw` rows (the vector hits with their distances) and
`collection.get(limit=2000, ...)` by a list of `StoreRec` (the bounded store
snapshot the lexical scan reads). -/

/-- Descending-by-score comparison used to model Python's stable
`list.sort(key=lambda x: x["score"], reverse=True)`. -/
def byScoreDesc (a b : Chunk) : Prop := b.score ≤ a.score

instance : DecidableRel byScoreDesc := fun a b => inferInstanceAs (Decidable (b.score ≤ a.score))

instance : IsTotal Chunk byScoreDesc := ⟨fun a b => le_total b.score a.score⟩

instance : IsTrans Chunk byScoreDesc := ⟨fun _ _ _ h1 h2 => le_trans h2 h1⟩

/-- Python's stable descending sort by score (insertion sort is stable and,
with this relation, places earlier elements before later equal-scored ones,
exactly like CPython's stable `sort` with `reverse=True`). -/
def sortByScoreDesc (l : List Chunk) : List Chunk := List.insertionSort byScoreDesc l

/-- `chroma_service.search_documents_keyword`: lexical search over the store
snapshot.  Scores each chunk containing at least one query keyword as
`(matched_keywords / total_keywords) * 0.5`, sorts descending, keeps `top_k`. -/
def search_documents_keyword (store : List StoreRec) (query_text : Str) (top_k : Nat) : List Chunk :=
  let query_keywords := extract_keywords query_text
  if query_keywords = [] then []
  else
    let kwl := query_keywords.map pyLower
    let scored := store.filterMap (fun sr =>
      let doc_text := pyLower sr.text
      let mcount := kwl.countP (fun kw => inStr kw doc_text)
      if 0 < mcount then
        some ⟨sr.id, sr.text, sr.metadata,
              ((mcount : ℚ) / (kwl.length : ℚ)) * (1 / 2)⟩
      else none)
    (sortByScoreDesc scored).take top_k

/-- Lookup in the insertion-ordered dict model. -/
def dictGet : List (Str × Chunk) → Str → Option Chunk
  | [], _ => none
  | (k', v) :: rest, k => if k' = k then some v else dictGet rest k

/-- `d[k] = v` on a Python dict: replaces in place if the key exists,
otherwise appends, preserving insertion order. -/
def dictInsert : List (Str × Chunk) → Str → Chunk → List (Str × Chunk)
  | [], k, v => [(k, v)]
  | (k', v') :: rest, k, v =>
    if k' = k then (k, v) :: rest else (k', v') :: dictInsert rest k v

/-- `dict.values()` in insertion order. -/
def dictValues (d : List (Str × Chunk)) : List Chunk := d.map (fun p => p.2)

/-- The vector pass of the merge: `result_dict[r["id"]] = r` for each vector
result in order. -/
def vectorDict (vector_results : List Chunk) : List (Str × Chunk) :=
  vector_results.foldl (fun d r => dictInsert d r.id r) []

/-- One keyword-result merge step: add `score * 0.3` onto an existing vector
entry, or insert the keyword-only chunk with its score scaled by `0.3`. -/
def mergeStep (d : List (Str × Chunk)) (r : Chunk) : List (Str × Chunk) :=
  match dictGet d r.id with
  | some v => dictInsert d r.id { v with score := v.score + r.score * (3 / 10) }
  | none => dictInsert d r.id { r with score := r.score * (3 / 10) }

/-- The merged dict after both passes. -/
def mergedDict (vector_results keyword_results : List Chunk) : List (Str × Chunk) :=
  keyword_results.foldl mergeStep (vectorDict vector_results)

/-- The keys of the dict model, in insertion order. -/
def dictKeys (d : List (Str × Chunk)) : List Str := d.map (fun p => p.1)

/-- Well-formedness of the dict model: distinct keys, and every stored chunk
keyed by its own id (the invariant of the merge). -/
def DictWF (d : List (Str × Chunk)) : Prop :=
  (dictKeys d).Nodup ∧ ∀ p ∈ d, p.2.id = p.1

/-- The conversion of the raw vector-query rows to results:
`similarity = 1 - distance` for the cosine space. -/
def vecChunks (vecRows : List VecRaw) : List Chunk :=
  vecRows.map (fun v => ⟨v.id, v.text, v.metadata, 1 - v.distance⟩)

/-- `chroma_service.search_documents`.  In hybrid mode with non-empty query
text the keyword results (over `2 * top_k`) are merged in, the merged values
sorted descending by score and truncated to `top_k`; otherwise the vector
results are returned unchanged. -/
def search_documents (vecRows : List VecRaw) (store : List StoreRec) (top_k : Nat)
    (hybrid : Bool) (query_text : Str) : List Chunk :=
  let vector_results : List Chunk := vecChunks vecRows
  if hybrid ∧ query_text ≠ [] then
    let keyword_results := search_documents_keyword store query_text (top_k * 2)
    let merged := mergedDict vector_results keyword_results
    (sortByScoreDesc (dictValues merged)).take top_k
  else vector_results

/-! ## `app/services/rag_service.py`: query expansion and intent heuristics -/

/-- The ASCII apostrophe (written by code point to keep the sources plain). -/
def apos : Char := Char.ofNat 39

/-- The literal `"what's"`. -/
def whatAposS : Str := strOf "what" ++ [apos] ++ strOf "s"

/-- The literal `"who's"`. -/
def whoAposS : Str := strOf "who" ++ [apos] ++ strOf "s"

/-- The literal `"can't find"`. -/
def cantFind : Str := strOf "can" ++ [apos] ++ strOf "t find"

/-- Case-insensitive match of a lowercase pattern against a prefix of `s`
(Python `re.IGNORECASE` on a literal): each subject character must lower to
exactly the corresponding pattern character. -/
def ciMatches : Str → Str → Bool
  | [], _ => true
  | _ :: _, [] => false
  | p :: ps, c :: cs => lowerChar c = [p] && ciMatches ps cs

/-- `re.search(rf"\b{w}\b", s, re.IGNORECASE)` for a lowercase literal `w`
made of word characters. -/
def wordCiFindAux (w : Str) : Bool → Str → Bool
  | _, [] => false
  | prevOk, c :: rest =>
    (prevOk && ciMatches w (c :: rest) && boundaryHead ((c :: rest).drop w.length)) ||
      wordCiFindAux w (!isWordChar c) rest

/-- `pattern.sub(repl, s, count=1)` for the same word-bounded case-insensitive
literal: replaces the first occurrence. -/
def replaceFirstWordCiAux (w repl : Str) : Bool → Str → Str
  | _, [] => []
  | prevOk, c :: rest =>
    if prevOk && ciMatches w (c :: rest) && boundaryHead ((c :: rest).drop w.length) then
      repl ++ ((c :: rest).drop w.length)
    else c :: replaceFirstWordCiAux w repl (!isWordChar c) rest

/-- Python `str.split()` (split on whitespace runs). -/
def splitWsAux (fuel : Nat) (s : Str) : List Str :=
  match fuel with
  | 0 => []
  | fuel + 1 =>
    match s.dropWhile isSpaceChar with
    | [] => []
    | t@(_ :: _) =>
      t.takeWhile (fun c => !isSpaceChar c) ::
        splitWsAux fuel (t.dropWhile (fun c => !isSpaceChar c))

/-- Python `str.split()`. -/
def splitWs (s : Str) : List Str := splitWsAux (s.length + 1) s

/-- Python `str.rstrip("?")`. -/
def rstripQm (s : Str) : Str := (s.reverse.dropWhile (fun c => c = '?')).reverse

/-- The `known_entities` table of `_expand_query_if_needed` (insertion order). -/
def known_entities : List (Str × Str) :=
  [(strOf "tyler", strOf "Tyler Grange ecological consultant"),
   (strOf "grange", strOf "Tyler Grange ecological consultant"),
   (strOf "lemp", strOf "LEMP Landscape and Ecological Management Plan"),
   (strOf "eia", strOf "EIA Environmental Impact Assessment")]

/-- The alternatives of `\b(what is|what's|nedir|ne demek)\b`. -/
def whatIsAlts : List Str := [strOf "what is", whatAposS, strOf "nedir", strOf "ne demek"]

/-- `rag_service._expand_query_if_needed`. -/
def expand_query_if_needed (q : Str) : Str :=
  if q = [] then q
  else
    let q_lower := stripStr (pyLower q)
    let q_original := stripStr q
    let singleHit : Option Str :=
      match splitWs q_original with
      | [w] =>
        let wl := rstripQm (pyLower w)
        (known_entities.find? (fun p => decide (p.1 = wl))).map (fun p => p.2)
      | _ => none
    match singleHit with
    | some e => e
    | none =>
      if containsWordAlt whatIsAlts q_lower then
        match known_entities.find?
            (fun p => inStr p.1 q_lower && wordCiFindAux p.1 true q_original) with
        | some p => replaceFirstWordCiAux p.1 p.2 true q_original
        | none => q
      else q

/-- The query-intent classes of `_detect_query_intent` (the confidence value
is never read downstream, so only the type is modelled). -/
inductive QIntent
  | definition
  | reference
  | identity
  | table
  | normal
deriving DecidableEq

/-- `re.search(r"\[[\d]+\]", s)`: a bracketed digit run. -/
def bracketNumHit : Str → Bool
  | [] => false
  | c :: rest =>
    (c = '[' &&
      (let ds := rest.takeWhile isAsciiDigit
       decide (ds ≠ []) && decide ((rest.drop ds.length).head? = some ']'))) ||
    bracketNumHit rest

/-- `rag_service._detect_query_intent` (type component only). -/
def detect_query_intent (q : Str) : QIntent :=
  let q_lower := pyLower q
  if containsWordAlt [strOf "what is", whatAposS, strOf "nedir", strOf "ne demek",
      strOf "tanımı", strOf "definition", strOf "meaning"] q_lower then .definition
  else if containsWordAlt [strOf "ref", strOf "reference", strOf "referans"] q_lower ||
      bracketNumHit q_lower then .reference
  else if containsWordAlt [strOf "who is", whoAposS, strOf "kimdir", strOf "kim"] q_lower then
    .identity
  else if containsWordAlt [strOf "table", strOf "tablo", strOf "ratio", strOf "oranı",
      strOf "oran", strOf "metraj", strOf "voltage", strOf "gerilim", strOf "current",
      strOf "akım"] q_lower then .table
  else .normal

/-- Uppercase test for `w[0].isupper()` over the used repertoire. -/
def isUpperChar (c : Char) : Bool :=
  (65 ≤ c.toNat && c.toNat ≤ 90) ||
    ['Ş', 'Ğ', 'Ü', 'Ç', 'Ö', 'İ'].contains c

/-- The entity-name set shared by `_is_entity_lookup`. -/
def knownEntityNames : List Str := [strOf "tyler", strOf "grange", strOf "lemp", strOf "eia"]

/-- `rag_service._is_entity_lookup`. -/
def is_entity_lookup (q : Str) : Bool :=
  if q = [] then false
  else
    let words := splitWs (stripStr q)
    if 3 ≤ words.length then false
    else
      let has_capitalized := words.any (fun w => match w.head? with
        | some c => isUpperChar c
        | none => false)
      let q_lower := pyLower q
      let has_known_entity := knownEntityNames.any (fun e => inStr e q_lower)
      if !has_capitalized && !has_known_entity then false
      else if q.any isAsciiDigit then false
      else true

/-- The existence test for
`re.search(r"\b(what is|what's|who is|who's|nedir|kimdir)\s+([A-Z][a-z]+(?:\s+[A-Z][a-z]+)?)", s)`
on the original (case-preserved) text: the optional group may be empty, so the
pattern matches iff some position offers a word-bounded lowercase alternative,
at least one whitespace character, one ASCII uppercase and one ASCII
lowercase letter. -/
def orgCapHitAux (alts : List Str) : Bool → Str → Bool
  | _, [] => false
  | prevOk, c :: rest =>
    (prevOk && alts.any (fun a =>
      a.isPrefixOf (c :: rest) &&
        (let t := (c :: rest).drop a.length
         let ws := t.takeWhile isSpaceChar
         decide (ws ≠ []) &&
           (match t.drop ws.length with
            | u :: l :: _ => isUpperChar u && (97 ≤ l.toNat && l.toNat ≤ 122)
            | _ => false)))) ||
    orgCapHitAux alts (!isWordChar c) rest

/-- `rag_service._is_organization_query`. -/
def is_organization_query (q : Str) : Bool :=
  let q_lower := pyLower q
  let q_original := stripStr q
  let firstBranch :=
    containsWordAlt [strOf "what is", whatAposS, strOf "who is", whoAposS,
      strOf "nedir", strOf "kimdir"] q_lower &&
    orgCapHitAux [strOf "what is", whatAposS, strOf "who is", whoAposS,
      strOf "nedir", strOf "kimdir"] true q_original
  if firstBranch then true
  else
    let words := splitWs q_original
    let shortBranch :=
      decide (words.length ≤ 2) &&
      words.any (fun w => match w.head? with
        | some c => isUpperChar c
        | none => false) &&
      (let equipment_terms := [strOf "tiger", strOf "neo", strOf "jinko", strOf "sungrow",
         strOf "sg350", strOf "inverter", strOf "module", strOf "panel", strOf "cable",
         strOf "kablo"]
       let q_lower_words := words.map pyLower
       !equipment_terms.any (fun t => decide (t ∈ q_lower_words)))
    if shortBranch then true
    else
      [strOf "consultant", strOf "company", strOf "firm", strOf "organization",
       strOf "author", strOf "producer", strOf "danışman", strOf "şirket",
       strOf "firma"].any (fun kw => inStr kw q_lower)

/-- `rag_service._is_ecology_document`. -/
def is_ecology_document (doc_name : Str) : Bool :=
  let dn := pyLower doc_name
  inStr (strOf "lemp") dn || inStr (strOf "ecological") dn || inStr (strOf "landscape") dn ||
    inStr (strOf "eia") dn || inStr (strOf "environmental") dn ||
    inStr (strOf "tyler") dn || inStr (strOf "grange") dn

/-! ## `rag_service._select_chunks` -/

/-- `\bbat\s*<suffix>\b` scanner (used for `bat\s*box` and `bat\s*boxes`). -/
def batWsHitAux (suffix : Str) : Bool → Str → Bool
  | _, [] => false
  | prevOk, c :: rest =>
    (prevOk && (strOf "bat").isPrefixOf (c :: rest) &&
      (let t := ((c :: rest).drop 3).dropWhile isSpaceChar
       suffix.isPrefixOf t && boundaryHead (t.drop suffix.length))) ||
    batWsHitAux suffix (!isWordChar c) rest

/-- `re.search(r"\bbat\s*box\b|\bbatbox\b|\bbat\s*boxes\b", s)`. -/
def batBoxQueryHit (s : Str) : Bool :=
  batWsHitAux (strOf "box") true s || containsWordAlt [strOf "batbox"] s ||
    batWsHitAux (strOf "boxes") true s

/-- `infer_doc_type` (local to `_select_chunks`). -/
def infer_doc_type (doc_name : Str) (meta : Meta) : Str :=
  match meta.doc_type with
  | some dt =>
    if dt ≠ [] then pyLower dt
    else inferFromName doc_name
  | none => inferFromName doc_name
where
  inferFromName (doc_name : Str) : Str :=
    let dn := pyLower doc_name
    if (strOf ".pdf").isSuffixOf dn then strOf "pdf"
    else if (strOf ".docx").isSuffixOf dn || (strOf ".doc").isSuffixOf dn then strOf "word"
    else if (strOf ".xlsx").isSuffixOf dn || (strOf ".xls").isSuffixOf dn then strOf "excel"
    else strOf "unknown"

/-- `str(meta.get("doc_name") or "")`. -/
def docNameOrEmpty (meta : Meta) : Str :=
  match meta.doc_name with
  | some d => d
  | none => []

/-- The keyword-accumulation state: the ordered unique keyword list together
with the `seen_kw` set (modelled as a list). -/
structure KwState where
  uniq : List Str
  seen : List Str

/-- Append a keyword if unseen (the `seen_kw` idiom). -/
def kwAdd (st : KwState) (kw : Str) : KwState :=
  if kw ∈ st.seen then st else ⟨st.uniq ++ [kw], kw :: st.seen⟩

/-- The initial de-duplication of `kws` into `uniq_kws`: each keyword is
stripped and lowered, empties are skipped. -/
def kwDedup (kws : List Str) : KwState :=
  kws.foldl (fun st kw0 =>
    let kw := pyLower (stripStr kw0)
    if kw = [] then st else kwAdd st kw) ⟨[], []⟩

/-- The short-token allowlist `allow_short_units`. -/
def allow_short_units : List Str :=
  [strOf "m", strOf "mm", strOf "v", strOf "kv", strOf "a", strOf "hz", strOf "%",
   strOf "wp", strOf "w", strOf "kw", strOf "mw"]

/-- The raw-token character class `[0-9A-Za-zğüşöçıİĞÜŞÖÇ]`. -/
def isRawTokenChar (c : Char) : Bool :=
  isAsciiAlnum c ||
    ['ğ', 'ü', 'ş', 'ö', 'ç', 'ı', 'İ', 'Ğ', 'Ü', 'Ş', 'Ö', 'Ç'].contains c

/-- The effective keyword list of `_select_chunks` before intent-specific
expansion: `extract_keywords(q)` plus the raw tokens of the lowered query
(keeping short tokens only when they are allow-listed units), stripped,
lowered and de-duplicated in order. -/
def effective_keywords (q : Str) : KwState :=
  let q_lower := pyLower q
  let kws := extract_keywords q
  let raw_tokens := tokensBounded isRawTokenChar q_lower
  let added := raw_tokens.filter (fun t =>
    let tl := pyLower t
    !(decide (tl.length ≤ 2) && !decide (tl ∈ allow_short_units)))
  kwDedup (kws ++ added)

/-- The sort key of `boosted_sort_key`: `(-(score + boost), doc_name)`,
compared as an ascending lexicographic pair. -/
def boosted_sort_key (intent : QIntent) (intent_ecology intent_inverter entity_like : Bool)
    (r : Chunk) : ℚ × Str :=
  let meta := r.metadata
  let dn := docNameOrEmpty meta
  let dt := infer_doc_type dn meta
  let score := r.score
  let b1 : ℚ :=
    match meta.section_type with
    | some st =>
      if st ≠ [] then
        if intent = .definition ∧ st = strOf "title" then 2
        else if intent = .reference ∧ st = strOf "references" then 3
        else if intent = .identity ∧ st = strOf "title" then 3 / 2
        else if intent = .table ∧ st = strOf "table" then 1
        else 0
      else 0
    | none => 0
  let b2 : ℚ :=
    if intent_ecology then
      (if dt = strOf "pdf" then 2 else 0) +
      (if is_ecology_document dn then 5 / 2 else 0) +
      (if inStr (strOf "landscape") (pyLower dn) || inStr (strOf "ecological") (pyLower dn)
        then 1 else 0) +
      (if dt = strOf "excel" then -2 else 0) +
      (if inStr (strOf "technical description") (pyLower dn) ||
          inStr (strOf "bill of m") (pyLower dn) then -(3 / 2) else 0)
    else 0
  let b3 : ℚ :=
    if intent_inverter then
      (if dt = strOf "word" ∨ dt = strOf "excel" then 1 else 0) +
      (if inStr (strOf "technical description") (pyLower dn) then 1 else 0)
    else 0
  let b4 : ℚ :=
    if entity_like then
      (if is_ecology_document dn then 5 else 0) +
      (if dt = strOf "pdf" ∧ (inStr (strOf "lemp") (pyLower dn) ||
          inStr (strOf "ecological") (pyLower dn) ||
          inStr (strOf "landscape") (pyLower dn)) then 3 else 0) +
      (if dt = strOf "excel" then -5 else 0) +
      (if inStr (strOf "technical description") (pyLower dn) ||
          inStr (strOf "bill of m") (pyLower dn) then -4 else 0) +
      (if [strOf "tiger", strOf "neo", strOf "jinko", strOf "module", strOf "panel",
           strOf "inverter", strOf "sg350", strOf "sungrow"].any
             (fun t => inStr t (pyLower r.text)) then -2 else 0)
    else 0
  (-(score + b1 + b2 + b3 + b4), dn)

/-- Ascending order on sort keys (Python tuple comparison). -/
def sortKeyLe (a b : ℚ × Str) : Prop :=
  a.1 < b.1 ∨ (a.1 = b.1 ∧ (strLtB a.2 b.2 = true ∨ a.2 = b.2))

instance : DecidableRel sortKeyLe := fun a b => by
  unfold sortKeyLe; infer_instance

/-- Python's stable `list.sort(key=boosted_sort_key)`. -/
def sortByBoostedKey (intent : QIntent) (ie ii el : Bool) (l : List Chunk) : List Chunk :=
  List.insertionSort
    (fun r r' => sortKeyLe (boosted_sort_key intent ie ii el r) (boosted_sort_key intent ie ii el r')) l

/-- De-duplication by chunk id, preserving order (the `seen_ids` loop). -/
def dedupById : List Str → List Chunk → List Chunk
  | _, [] => []
  | seen, r :: rest =>
    if r.id ∈ seen then dedupById seen rest
    else r :: dedupById (r.id :: seen) rest

/-- `rag_service._select_chunks`. -/
def select_chunks (q : Str) (items0 : List Chunk)
    (max_chunks : Nat := 25) (preferred_keyword_chunks : Nat := 15) : List Chunk :=
  if items0 = [] then []
  else
    let q_lower := pyLower q
    let intent := detect_query_intent q
    let entLookup := is_entity_lookup q
    let orgQuery := is_organization_query q
    let entityDef := intent = .definition ∧ orgQuery
    let entity_like := entLookup ∨ entityDef
    let intent_ecology0 :=
      containsWordAlt [strOf "planting", strOf "hedgerow", strOf "ecolog", strOf "lemp",
        strOf "tyler", strOf "grange", strOf "yarasa"] q_lower ||
      batWsHitAux (strOf "box") true q_lower
    let intent_ecology := if entity_like then true else intent_ecology0
    let intent_inverter :=
      containsWordAlt [strOf "inverter", strOf "inverte", strOf "sg350", strOf "sungrow"] q_lower
    let st0 := effective_keywords q
    if st0.uniq = [] then items0.take max_chunks
    else
      let itemsSt :
          List Chunk × KwState :=
        if entity_like then
          let ecology_items := items0.filter (fun r => is_ecology_document (docNameOrEmpty r.metadata))
          if ecology_items ≠ [] then
            let st1 :=
              if inStr (strOf "tyler") q_lower || inStr (strOf "grange") q_lower then
                [strOf "tyler", strOf "grange", strOf "consultant", strOf "ecological",
                 strOf "lemp"].foldl kwAdd st0
              else st0
            (ecology_items, st1)
          else (items0, st0)
        else (items0, st0)
      let items1 := itemsSt.1
      let st2 := itemsSt.2
      let items2 :=
        if batBoxQueryHit q_lower then
          let pdf_items := items1.filter
            (fun r => infer_doc_type (docNameOrEmpty r.metadata) r.metadata = strOf "pdf")
          if pdf_items ≠ [] then pdf_items else items1
        else items1
      let expansions : List Str :=
        (if [strOf "kablo", strOf "kabllo", strOf "kblo"].any (fun k => decide (k ∈ st2.uniq))
          then [strOf "cable"] else []) ++
        (if st2.uniq.any (fun kw => inStr (strOf "metraj") kw)
          then [strOf "length", strOf "meter", strOf "meters"] else []) ++
        (if [strOf "marka", strOf "markası", strOf "mrakası", strOf "brand"].any
            (fun k => decide (k ∈ st2.uniq))
          then [strOf "brand", strOf "manufacturer"] else []) ++
        (if [strOf "inverter", strOf "inveter"].any (fun k => decide (k ∈ st2.uniq))
          then [strOf "inverter", strOf "sungrow", strOf "sg350"] else []) ++
        (if strOf "tyler" ∈ st2.uniq
          then [strOf "tyler grange", strOf "grange", strOf "consultant", strOf "ecological",
                strOf "lemp"] else []) ++
        (if strOf "grange" ∈ st2.uniq
          then [strOf "tyler grange", strOf "tyler", strOf "consultant"] else []) ++
        (if strOf "lemp" ∈ st2.uniq
          then [strOf "landscape", strOf "ecological", strOf "management", strOf "plan"]
          else [])
      let st3 := expansions.foldl (fun st ex =>
        let e := pyLower (stripStr ex)
        if e ≠ [] then kwAdd st e else st) st2
      let st4 :=
        if batBoxQueryHit q_lower then
          let st4a : KwState := ⟨st3.uniq.filter (fun kw => kw ≠ strOf "box"), st3.seen⟩
          [strOf "bat box", strOf "batbox", strOf "bat boxes", strOf "yarasa"].foldl kwAdd st4a
        else st3
      let uniq_kws := st4.uniq
      let hasKw := fun (text : Str) => uniq_kws.any (fun kw => inStr kw (pyLower text))
      let kw_hits := items2.filter (fun r => hasKw r.text)
      let rest := items2.filter (fun r => !decide (r ∈ kw_hits))
      let kw_hits_s := sortByBoostedKey intent intent_ecology intent_inverter entity_like kw_hits
      let rest_s := sortByBoostedKey intent intent_ecology intent_inverter entity_like rest
      let anchors : List Chunk :=
        if containsWordAlt [strOf "kablo", strOf "cable"] q_lower then
          let find_anchor := fun (pred : Str → Bool) => items2.find? (fun rr => pred (pyLower rr.text))
          let dc := find_anchor (fun t => inStr (strOf "dc") t || inStr (strOf "h1z2z2") t)
          let ac := find_anchor (fun t => inStr (strOf "ac") t || inStr (strOf "lv") t ||
            inStr (strOf "0.6/1") t)
          let mv := find_anchor (fun t => inStr (strOf "mv") t ||
            inStr (strOf "medium voltage") t || inStr (strOf "xlpe") t)
          [dc, ac, mv].foldl (fun sel a =>
            match a with
            | some ch => if ch ∈ sel then sel else sel ++ [ch]
            | none => sel) []
        else []
      let sel1 := anchors ++ kw_hits_s.take preferred_keyword_chunks
      let sel2 :=
        if sel1.length < max_chunks then sel1 ++ rest_s.take (max_chunks - sel1.length)
        else sel1
      dedupById [] sel2

/-! ## `rag_service._extract_kv_pairs_from_data`

The Python code iterates
`re.finditer(r"(?P<key>[^:]{1,120}):\s*(?P<val>.*?)(?=(?:,\s*[^:]{1,120}:\s*)|$)", after, re.DOTALL)`.
The scanners below implement exactly that engine behaviour: a match starts at
the first position whose distance to the next colon is between 1 and 120; the
value is the shortest (lazy) run after the greedy whitespace skip such that
the position that follows it satisfies the lookahead (a comma introducing the
next `key:` within 120 non-colon characters, or the `$` of a non-MULTILINE
pattern, which also matches just before a single trailing newline). -/

/-- Does `[^:]{1,120}:` match at the start of `t` (with backtracking)? -/
def colonWithin (t : Str) : Bool :=
  let d := (t.takeWhile (fun c => c ≠ ':')).length
  decide (1 ≤ d) && decide (d ≤ 120) && decide (d < t.length)

/-- The post-comma part of the lookahead `,\s*[^:]{1,120}:\s*`: after skipping
any number of whitespace characters (the backtrackable `\s*`), `[^:]{1,120}:`
must match. -/
def commaLook : Str → Bool
  | [] => false
  | t@(c :: rest) => colonWithin t || (isSpaceChar c && commaLook rest)

/-- The full lookahead `(?=(?:,\s*[^:]{1,120}:\s*)|$)` at the current
position (`$` without `re.MULTILINE` matches at the end of the string or just
before a terminal newline). -/
def kvLookahead (u : Str) : Bool :=
  (match u with
   | ',' :: rest => commaLook rest
   | _ => false) ||
  decide (u = []) || decide (u = ['\n'])

/-- The lazy value: the shortest prefix of `t` whose remainder satisfies the
lookahead; returns `(value, remainder)`. -/
def lazyVal (t : Str) : Str × Str :=
  if kvLookahead t then ([], t)
  else
    match t with
    | [] => ([], [])
    | c :: rest =>
      let p := lazyVal rest
      (c :: p.1, p.2)

/-- Try to match one `key: value` pair at the start of `s`; on success return
`(key, value, remainder after the match)`. -/
def kvMatchAt (s : Str) : Option (Str × Str × Str) :=
  let key := s.takeWhile (fun c => c ≠ ':')
  if 1 ≤ key.length ∧ key.length ≤ 120 ∧ key.length < s.length then
    let t := (s.drop (key.length + 1)).dropWhile isSpaceChar
    let p := lazyVal t
    some (key, p.1, p.2)
  else none

/-- The `finditer` loop: emit the match at the current position if there is
one and resume after it, otherwise shift one character. -/
def kvScan (fuel : Nat) (s : Str) : List (Str × Str) :=
  match fuel with
  | 0 => []
  | fuel + 1 =>
    match s with
    | [] => []
    | _ :: rest =>
      match kvMatchAt s with
      | some (k, v, u) => (k, v) :: kvScan fuel u
      | none => kvScan fuel rest

/-- Python `text.split(sep, 1)` when `sep` occurs: the part after the first
occurrence (the code only uses the second component). -/
def afterFirst (sep : Str) : Str → Option Str
  | [] => if sep = [] then some [] else none
  | s@(_ :: rest) =>
    if sep.isPrefixOf s then some (s.drop sep.length)
    else afterFirst sep rest

/-- `rag_service._extract_kv_pairs_from_data`: split on the first `DATA:`,
strip, run the key/value regex, and keep the stripped pairs whose key and
value are both non-empty. -/
def extract_kv_pairs_from_data (text : Str) : List (Str × Str) :=
  match afterFirst (strOf "DATA:") text with
  | none => []
  | some after0 =>
    let a := stripStr after0
    if a = [] then []
    else (kvScan (a.length + 1) a).filterMap (fun kv =>
      let ks := stripStr kv.1
      let vs := stripStr kv.2
      if ks ≠ [] ∧ vs ≠ [] then some (ks, vs) else none)

/-! ## `rag_service._try_answer_total_inverters` -/

/-- `meta.get("doc_name") or "Unknown Document"`. -/
def docNameOr (meta : Meta) : Str :=
  match meta.doc_name with
  | some d => if d = [] then strOf "Unknown Document" else d
  | none => strOf "Unknown Document"

/-- The `Page:`-flavoured location used in citations (`elif page:`). -/
def pageLoc (meta : Meta) : Option Str :=
  match meta.page with
  | some p => if p ≠ 0 then some (strOf "Page: " ++ intToStr p) else none
  | none => none

/-- The location part of a citation: `table_num` (an `is not None` check)
first, then a truthy `sheet`, then a truthy `page`. -/
def citLoc (meta : Meta) : Option Str :=
  match meta.table_num with
  | some t => some (strOf "Table: " ++ intToStr t)
  | none =>
    match meta.sheet with
    | some s =>
      if s ≠ [] then some (strOf "Sheet: " ++ s) else pageLoc meta
    | none => pageLoc meta

/-- `f"[Kaynak: {doc_name}{', ' + loc if loc else ''}]"`. -/
def mkCitation (meta : Meta) : Str :=
  strOf "[Kaynak: " ++ docNameOr meta ++
    (match citLoc meta with
     | some l => strOf ", " ++ l
     | none => []) ++ [']']

/-- `re.fullmatch(r"\s*(\d{1,6})\s*", v)`: the stripped value is one to six
ASCII digits. -/
def isIntToken (v : Str) : Option Nat :=
  let core := stripStr v
  if core ≠ [] ∧ core.length ≤ 6 ∧ core.all isAsciiDigit then some (digitsToNat core)
  else none

/-- Does a key/value pair list carry an explicit total-inverters label
(`"total"` and `"inverter"` both inside a lowered key or a lowered value)? -/
def hasTotalLabel (kvs : List (Str × Str)) : Bool :=
  kvs.any (fun kv => inStr (strOf "total") (pyLower kv.1) && inStr (strOf "inverter") (pyLower kv.1)) ||
    kvs.any (fun kv => inStr (strOf "total") (pyLower kv.2) && inStr (strOf "inverter") (pyLower kv.2))

/-- The explicit-total scan (first loop of `_try_answer_total_inverters`):
the first item whose `DATA` pairs carry the total label and contain a plain
integer value yields the direct answer. -/
def total_row_answer (items : List Chunk) : Option (Str × Option Str) :=
  items.findSome? (fun r =>
    let meta := r.metadata
    let doc_name := docNameOr meta
    let cit := mkCitation meta
    let kvs := extract_kv_pairs_from_data r.text
    if kvs = [] then none
    else if hasTotalLabel kvs then
      kvs.findSome? (fun kv =>
        match isIntToken kv.2 with
        | some n =>
          some (strOf "Projede toplam " ++ natToStr n ++
            strOf " adet inverter bulunmaktadır " ++ cit, some doc_name)
        | none => none)
    else none)

/-- `re.search(r"\bSUBSTATION\s*(\d+)\b", k, re.IGNORECASE)`: the digit
string of the first word-bounded `SUBSTATION <number>` in a key. -/
def subKeyAux : Bool → Str → Option Str
  | _, [] => none
  | prevOk, c :: rest =>
    (if prevOk && ciMatches (strOf "substation") (c :: rest) then
      let t := ((c :: rest).drop 10).dropWhile isSpaceChar
      let ds := t.takeWhile isAsciiDigit
      if ds ≠ [] ∧ boundaryHead (t.drop ds.length) then some ds else none
     else none).orElse (fun _ => subKeyAux (!isWordChar c) rest)

/-- `re.search(r"\b(\d+)\b", s)`: the first word-bounded digit run. -/
def firstBoundedNum : Bool → Str → Option Str
  | _, [] => none
  | prevOk, c :: rest =>
    if prevOk && isAsciiDigit c then
      let run := c :: rest.takeWhile isAsciiDigit
      let after := rest.dropWhile isAsciiDigit
      if boundaryHead after then some run
      else firstBoundedNum false rest
    else firstBoundedNum (!isWordChar c) rest

/-- `re.search(r"[x×*/+]", s)`: the complex-expression guard. -/
def hasOpChar (s : Str) : Bool :=
  s.any (fun c => c = 'x' || c = '×' || c = '*' || c = '/' || c = '+')

/-- The tail of the fallback pattern after the substation number:
`.*?\b(\d+)\b\s*inverters?\b` — the earliest position carrying a word-bounded
digit run followed by optional whitespace and a word-bounded `inverter` or
`inverters` (case-insensitive).  Returns the digit run and the length
consumed from the scan start up to the end of the match. -/
def invAfterNumAux : Bool → Nat → Str → Option (Str × Nat)
  | _, _, [] => none
  | prevOk, consumed, c :: rest =>
    (if prevOk && isAsciiDigit c then
      let run := c :: rest.takeWhile isAsciiDigit
      let after := rest.dropWhile isAsciiDigit
      if boundaryHead after then
        let wsLen := (after.takeWhile isSpaceChar).length
        let u := after.drop wsLen
        if ciMatches (strOf "inverter") u then
          let u8 := u.drop 8
          if ciMatches (strOf "s") u8 && boundaryHead (u8.drop 1) then
            some (run, consumed + run.length + wsLen + 9)
          else if boundaryHead u8 then
            some (run, consumed + run.length + wsLen + 8)
          else none
        else none
      else none
     else none).orElse
      (fun _ => invAfterNumAux (!isWordChar c) (consumed + 1) rest)

/-- One attempted match of
`\bsubstation\s*(\d+)\b.*?\b(\d+)\b\s*inverters?\b` at the current position:
on success, the two digit groups and the length of the whole match. -/
def subInvMatchAt (s : Str) : Option (Str × Str × Nat) :=
  if ciMatches (strOf "substation") s then
    let afterSub := s.drop 10
    let wsLen := (afterSub.takeWhile isSpaceChar).length
    let t1 := afterSub.drop wsLen
    let d1 := t1.takeWhile isAsciiDigit
    if d1 ≠ [] ∧ boundaryHead (t1.drop d1.length) then
      match invAfterNumAux true 0 (t1.drop d1.length) with
      | some (d2, len2) => some (d1, d2, 10 + wsLen + d1.length + len2)
      | none => none
    else none
  else none

/-- The `finditer` loop of the fallback pattern: each element is
`(substation digits, count digits, matched segment)`. -/
def subInvScan (fuel : Nat) (prevOk : Bool) (s : Str) : List (Str × Str × Str) :=
  match fuel with
  | 0 => []
  | fuel + 1 =>
    match s with
    | [] => []
    | c :: rest =>
      match (if prevOk then subInvMatchAt s else none) with
      | some (d1, d2, len) => (d1, d2, s.take len) :: subInvScan fuel false (s.drop len)
      | none => subInvScan fuel (!isWordChar c) rest

/-- The per-substation entries contributed by one candidate chunk: the
structured `DATA` pass followed by the fallback regex pass (both skipped when
the text does not mention `inverter`). -/
def item_sub_entries (r : Chunk) : List (Str × Nat × Str) :=
  if !inStr (strOf "inverter") (pyLower r.text) then []
  else
    let cit := mkCitation r.metadata
    let kvEntries := (extract_kv_pairs_from_data r.text).filterMap (fun kv =>
      match subKeyAux true kv.1 with
      | none => none
      | some ds =>
        let vl := pyLower kv.2
        if !inStr (strOf "inverter") vl then none
        else match firstBoundedNum true vl with
          | none => none
          | some n =>
            if hasOpChar vl then none
            else if 40 < vl.length then none
            else some (strOf "Substation " ++ ds, digitsToNat n, cit))
    let fbEntries := (subInvScan (r.text.length + 1) true r.text).filterMap (fun m =>
      if hasOpChar (pyLower m.2.2) then none
      else some (strOf "Substation " ++ m.1, digitsToNat m.2.1, cit))
    kvEntries ++ fbEntries

/-- `defaultdict(list)` append preserving key insertion order. -/
def psAdd (d : List (Str × List (Nat × Str))) (k : Str) (v : Nat × Str) :
    List (Str × List (Nat × Str)) :=
  match d with
  | [] => [(k, [v])]
  | (k', vs) :: rest =>
    if k' = k then (k', vs ++ [v]) :: rest else (k', vs) :: psAdd rest k v

/-- The `per_sub` mapping accumulated over all items. -/
def collect_per_sub (items : List Chunk) : List (Str × List (Nat × Str)) :=
  items.foldl (fun d r => (item_sub_entries r).foldl (fun d e => psAdd d e.1 e.2) d) []

/-- Order-preserving de-duplication of `(count, citation)` pairs. -/
def dedupVals : List (Nat × Str) → List (Nat × Str) → List (Nat × Str)
  | _, [] => []
  | seen, v :: rest =>
    if v ∈ seen then dedupVals seen rest else v :: dedupVals (v :: seen) rest

/-- The `dedup` dictionary. -/
def dedup_per_sub (d : List (Str × List (Nat × Str))) : List (Str × List (Nat × Str)) :=
  d.map (fun p => (p.1, dedupVals [] p.2))

/-- `re.search(r"\d+", s)`: the first digit run (no word boundaries). -/
def firstDigitRun : Str → Option Str
  | [] => none
  | c :: rest =>
    if isAsciiDigit c then some (c :: rest.takeWhile isAsciiDigit)
    else firstDigitRun rest

/-- The numeric sort key of a substation label (`int(re.search(r"\d+", s).group(0))`). -/
def subSortKey (s : Str) : Nat :=
  match firstDigitRun s with
  | some ds => digitsToNat ds
  | none => 0

/-- Python's stable `sorted(..., key=subSortKey)` on the dedup entries. -/
def sortSubs (d : List (Str × List (Nat × Str))) : List (Str × List (Nat × Str)) :=
  List.insertionSort (fun a b => subSortKey a.1 ≤ subSortKey b.1) d

/-- One breakdown line of the aggregate answer. -/
def subLine (p : Str × List (Nat × Str)) : Str :=
  match p.2 with
  | [(n, cit)] => strOf "- " ++ p.1 ++ strOf ": " ++ natToStr n ++ strOf " inverter " ++ cit
  | vals =>
    strOf "- " ++ p.1 ++ strOf ": " ++
      joinStr (strOf ", ") (vals.map (fun v => natToStr v.1 ++ strOf " " ++ v.2))

/-- The ambiguity caveat appended when some substation has several counts. -/
def ambiguityNote : Str :=
  strOf "Not: Aynı substation için birden fazla inverter sayısı geçtiği için tek bir toplam değeri güvenle hesaplayamıyorum."

/-- The `source` summary: the sorted set of truthy document names. -/
def agg_source (items : List Chunk) : Option Str :=
  let names := items.filterMap (fun r =>
    match r.metadata.doc_name with
    | some d => if d ≠ [] then some d else none
    | none => none)
  let s := joinStr (strOf ", ") (sortStrs (dedupStrs [] names))
  if s = [] then none else some s

/-- `rag_service._try_answer_total_inverters`. -/
def try_answer_total_inverters (q : Str) (items : List Chunk) : Option (Str × Option Str) :=
  let ql := pyLower q
  if !containsWordAlt [strOf "inverter", strOf "inverte"] ql then none
  else if !containsWordAlt [strOf "kaç", strOf "kac", strOf "how many", strOf "toplam",
      strOf "total"] ql then none
  else
    match total_row_answer items with
    | some a => some a
    | none =>
      let dedup := dedup_per_sub (collect_per_sub items)
      if dedup.length < 2 then none
      else
        let unambiguous := dedup.all (fun p => p.2.length = 1)
        let sorted := sortSubs dedup
        let blines := sorted.map subLine
        let lines :=
          if unambiguous then
            let total := (dedup.map (fun p => (p.2.headD (0, [])).1)).sum
            let calcStr := joinStr (strOf " + ") (sorted.map (fun p => natToStr (p.2.headD (0, [])).1))
            blines ++ [strOf "Toplam inverter sayısı: " ++ natToStr total ++
              strOf " (hesap: " ++ calcStr ++ strOf ")"]
          else blines ++ [ambiguityNote]
        some (joinStr (strOf "\n") lines, agg_source items)

/-! ## `rag_service.process_rag_query`: post-processing stage (lines 792-841) -/

/-- The fallback-indicating phrases of the normalization regex
`\b(cannot find|can't find|could not find|bulamıyorum|bulamadım|bulunamıyor)\b`. -/
def fallbackPhrases : List Str :=
  [strOf "cannot find", cantFind, strOf "could not find", strOf "bulamıyorum",
   strOf "bulamadım", strOf "bulunamıyor"]

/-- Rule 1 of the post-processor: does the stripped, lowered answer contain a
word-bounded fallback phrase? -/
def phraseHit (answer : Str) : Bool :=
  containsWordAlt fallbackPhrases (pyLower (stripStr answer))

/-- The `(Page …)` / `(Sheet: …)` suffix of the computed source. -/
def sourceLoc (meta : Meta) : Str :=
  match meta.page with
  | some p =>
    if p ≠ 0 then strOf " (Page " ++ intToStr p ++ [')'] else sourceSheet meta
  | none => sourceSheet meta
where
  sourceSheet (meta : Meta) : Str :=
    match meta.sheet with
    | some s => if s ≠ [] then strOf " (Sheet: " ++ s ++ [')'] else []
    | none => []

/-- Step 7 of `process_rag_query`: the primary chunk's document name
(`metadata.get("doc_name", "Unknown Document")`) plus its page or sheet. -/
def computeSource (meta : Meta) : Str :=
  (match meta.doc_name with
   | some d => d
   | none => strOf "Unknown Document") ++ sourceLoc meta

/-- The character class `[^,\]\n]` of the citation-extraction regex. -/
def isCiteClass (c : Char) : Bool := !(c = ',' || c = ']' || c = '\n')

/-- The candidate capture at offset `w`: a non-empty greedy class run. -/
def groupAt (t : Str) (w : Nat) : Option Str :=
  match (t.drop w).head? with
  | some c => if isCiteClass c then some ((t.drop w).takeWhile isCiteClass) else none
  | none => none

/-- Backtracking of the greedy `\s*` before the capture: try the largest
whitespace skip first. -/
def findGroupDown (t : Str) : Nat → Option Str
  | 0 => groupAt t 0
  | w + 1 => (groupAt t (w + 1)).orElse (fun _ => findGroupDown t w)

/-- The capture of `\s*([^,\]\n]+)` at the start of `t`. -/
def citeGroup (t : Str) : Option Str :=
  findGroupDown t (t.takeWhile isSpaceChar).length

/-- `re.search(r"\[(?:Source|Kaynak):\s*([^,\]\n]+)", answer, re.IGNORECASE)`:
the captured group of the first full match. -/
def mCiteAux : Str → Option Str
  | [] => none
  | c :: rest =>
    (if c = '[' && (ciMatches (strOf "source:") rest || ciMatches (strOf "kaynak:") rest) then
      citeGroup (rest.drop 7)
     else none).orElse (fun _ => mCiteAux rest)

/-- `re.search(r"\[(Source|Kaynak):", answer, re.IGNORECASE) is not None`. -/
def hasCiteBracket : Str → Bool
  | [] => false
  | c :: rest =>
    (c = '[' && (ciMatches (strOf "source:") rest || ciMatches (strOf "kaynak:") rest)) ||
      hasCiteBracket rest

/-- One step of the fallback source-list accumulation: keep a document name if
it is non-empty and not seen yet. -/
def fdnStep (acc : List Str) (r : Chunk) : List Str :=
  match r.metadata.doc_name with
  | some dn => if dn ≠ [] ∧ ¬ dn ∈ acc then acc ++ [dn] else acc
  | none => acc

/-- The fallback source list: at most five distinct truthy document names out
of the first five selected chunks, in order. -/
def fallbackDocNames (selected : List Chunk) : List Str :=
  (selected.take 5).foldl fdnStep []

/-- The post-processing stage of `process_rag_query` (lines 792-841): fallback
normalization, primary-source computation, citation reconciliation, fallback
source-list override and citation appending.  Returns `none` exactly when
both chunk lists are empty (the Python code would raise `IndexError` there). -/
def post_process (language : Bool) (selected relevant : List Chunk) (answer0 : Str) :
    Option (Str × Option Str) :=
  let fallback := get_fallback_message language
  let answer1 := if phraseHit answer0 then fallback else answer0
  match (match selected with
         | p :: _ => some p
         | [] => relevant.head?) with
  | none => none
  | some primary =>
    let source0 := computeSource primary.metadata
    let source1 :=
      match mCiteAux answer1 with
      | some g =>
        let cited := stripStr g
        if cited ≠ [] ∧ !inStr cited source0 then cited else source0
      | none => source0
    let ansL := pyLower (stripStr answer1)
    let is_fb := startsWithStr (pyLower (get_fallback_message true)) ansL ||
      startsWithStr (pyLower (get_fallback_message false)) ansL
    if is_fb then
      let doc_names := fallbackDocNames selected
      if doc_names ≠ [] then
        let sl := joinStr (strOf ", ") doc_names
        if !hasCiteBracket answer1 then
          some (rstripStr answer1 ++ strOf " [Kaynak: " ++ sl ++ [']'], some sl)
        else some (answer1, some sl)
      else some (answer1, none)
    else
      if answer1 ≠ [] ∧ !hasCiteBracket answer1 then
        some (rstripStr answer1 ++ strOf " [Kaynak: " ++ source1 ++ [']'], some source1)
      else some (answer1, some source1)

/-- The source string after the citation-override step (rule 2), for a given
primary chunk and post-rule-1 answer. -/
def ppSource (primary : Chunk) (answer1 : Str) : Str :=
  let source0 := computeSource primary.metadata
  match mCiteAux answer1 with
  | some g =>
    let cited := stripStr g
    if cited ≠ [] ∧ !inStr cited source0 then cited else source0
  | none => source0

/-- A selected chunk whose document name itself contains a fallback phrase. -/
def ppChunk : Chunk :=
  ⟨strOf "c9", strOf "Panel brand: Jinko", { doc_name := some (strOf "cannot find.pdf") }, 1⟩

/-- The post-processor's first-pass output on `ppChunk` (answer with the
appended citation, source aligned to the document name). -/
def ceOut : Str × Option Str :=
  (strOf "The brand is Jinko. [Kaynak: cannot find.pdf]", some (strOf "cannot find.pdf"))

/-- A selected chunk with an ordinary document name. -/
def w3Chunk : Chunk :=
  ⟨strOf "c10", strOf "BOM", { doc_name := some (strOf "bom.xlsx") }, 1⟩

/-- The post-processor's output on `w3Chunk` for a non-fallback answer. -/
def w3Out : Str × Option Str :=
  (strOf "The brand is Jinko. [Kaynak: bom.xlsx]", some (strOf "bom.xlsx"))

/-- The post-processor's output on `w3Chunk` for a fallback-phrased answer:
the canonical English fallback message with the fallback source list. -/
def w4Out : Str × Option Str :=
  (strOf "I cannot find this information in the provided records/documents. [Kaynak: bom.xlsx]",
   some (strOf "bom.xlsx"))

/-! ## `rag_service.process_rag_query`: the pipeline -/

/-- `config.SIMILARITY_THRESHOLD` (disabled: every result passes). -/
def SIMILARITY_THRESHOLD : ℚ := 0

/-- The lexical terms of the cable augmentation. -/
def cableTerms : List Str :=
  [strOf "cable type", strOf "cross section", strOf "mm2", strOf "mm²", strOf "h1z2z2"]

/-- The lexical terms of the bat-box / ecology augmentation. -/
def batTerms : List Str :=
  [strOf "bat box", strOf "bat boxes", strOf "batbox", strOf "yarasa",
   strOf "ecological", strOf "planting", strOf "hedgerow"]

/-- `re.search(r"\b(bat\s*box|batbox|bat\s*boxes|yarasa)\b", ql)`. -/
def batBoxAugHit (s : Str) : Bool :=
  batWsHitAux (strOf "box") true s || containsWordAlt [strOf "batbox"] s ||
    batWsHitAux (strOf "boxes") true s || containsWordAlt [strOf "yarasa"] s

/-- One augmentation pass: append the store chunks containing one of the
terms, skipping ids already present, with score `0.0`. -/
def augmentWith (terms : List Str) (scan : List StoreRec) (relevant : List Chunk) : List Chunk :=
  (scan.foldl (fun (acc : List Chunk × List Str) sr =>
    if sr.id ∈ acc.2 then acc
    else if terms.any (fun t => inStr t (pyLower sr.text)) then
      (acc.1 ++ [⟨sr.id, sr.text, sr.metadata, 0⟩], sr.id :: acc.2)
    else acc) (relevant, relevant.map Chunk.id)).1

/-- The outcomes of the external calls a single `process_rag_query` run
performs.  `searchOutcome` stands for the `search_documents` round-trip
(`.error` = the underlying engine raised); the two scans are the
`collection.get` calls of the augmentation blocks; `llmOutcome` is the
completion call. -/
structure RagWorld where
  embedOutcome : Except Str Unit
  searchOutcome : Except Str (List Chunk)
  cableScan : Except Str (List StoreRec)
  batScan : Except Str (List StoreRec)
  llmOutcome : Except Str Str

/-- `rag_service.process_rag_query`: the control flow of the pipeline, with
each external call replaced by its recorded outcome.  A `.error` result
models an exception escaping `process_rag_query` (the code wraps the
embedding and LLM calls in `try/except`, swallows augmentation failures, but
calls `search_documents` bare). -/
def process_rag_query (question0 : Str) (w : RagWorld) : Except Str (Str × Option Str) :=
  let question := expand_query_if_needed question0
  let language := detect_language question
  let fallback := get_fallback_message language
  match w.embedOutcome with
  | .error e => .ok (strOf "Error generating embedding: " ++ e, none)
  | .ok _ =>
    match w.searchOutcome with
    | .error e => .error e
    | .ok results =>
      if results = [] then .ok (fallback, none)
      else
        let relevant := results.filter (fun r => SIMILARITY_THRESHOLD ≤ r.score)
        if relevant = [] then .ok (fallback, none)
        else
          let ql := pyLower question
          let relevant1 :=
            if containsWordAlt [strOf "kablo", strOf "cable"] ql then
              match w.cableScan with
              | .ok scan => augmentWith cableTerms scan relevant
              | .error _ => relevant
            else relevant
          let relevant2 :=
            if batBoxAugHit ql then
              match w.batScan with
              | .ok scan => augmentWith batTerms scan relevant1
              | .error _ => relevant1
            else relevant1
          let selected := select_chunks question relevant2
          match try_answer_total_inverters question relevant2 with
          | some a => .ok a
          | none =>
            match w.llmOutcome with
            | .error e => .ok (strOf "Error generating answer: " ++ e, none)
            | .ok answer =>
              match post_process language selected relevant2 answer with
              | some out => .ok out
              | none => .error (strOf "IndexError")

/-! ## `app/routers/query.py` -/

/-- The response of the `/api/query` route for mode `general`. -/
inductive RouterResponse
  | success (answer : Str) (source : Option Str)
  | httpError (code : Nat) (detail : Str)
deriving DecidableEq

/-- The router's handling of `process_rag_query` (lines 99-105): a normal
result is forwarded; any exception is converted by the catch-all handler into
`HTTPException(500, "Internal server error: ...")`. -/
def router_query (result : Except Str (Str × Option Str)) : RouterResponse :=
  match result with
  | .ok a => .success a.1 a.2
  | .error e => .httpError 500 (strOf "Internal server error: " ++ e)

/-! ## Concrete fixtures -/

/-- A structured `DATA` row chunk giving Substation 1 exactly 27 inverters. -/
def aggChunk1 : Chunk :=
  ⟨strOf "sub1", strOf "SOURCE: TD.docx | DATA: SUBSTATION 1: 27 INVERTER",
   { doc_name := some (strOf "TD.docx") }, 1⟩

/-- A structured `DATA` row chunk giving Substation 2 exactly 30 inverters. -/
def aggChunk2 : Chunk :=
  ⟨strOf "sub2", strOf "SOURCE: TD.docx | DATA: SUBSTATION 2: 30 INVERTER",
   { doc_name := some (strOf "TD.docx") }, 1⟩

/-- A structured `DATA` row chunk giving Substation 3 exactly 97 inverters. -/
def aggChunk3 : Chunk :=
  ⟨strOf "sub3", strOf "SOURCE: TD.docx | DATA: SUBSTATION 3: 97 INVERTER",
   { doc_name := some (strOf "TD.docx") }, 1⟩

/-- A conflicting row: a second document reports 31 inverters for Substation 1. -/
def aggChunk1b : Chunk :=
  ⟨strOf "sub1b", strOf "SOURCE: TD2.docx | DATA: SUBSTATION 1: 31 INVERTER",
   { doc_name := some (strOf "TD2.docx") }, 1⟩

/-- Hybrid-search fixture: a vector hit (id `x1`) at cosine distance `1/5`. -/
def hyV1 : VecRaw := ⟨strOf "x1", strOf "Panel Brand: Jinko solar module", {}, 1 / 5⟩

/-- Hybrid-search fixture: the store record carrying the same chunk `x1`. -/
def hyS1 : StoreRec := ⟨strOf "x1", strOf "Panel Brand: Jinko solar module", {}⟩

/-- Hybrid-search fixture: a lexical-only store record (id `x3`). -/
def hyS3 : StoreRec := ⟨strOf "x3", strOf "brand of the panel", {}⟩

/-- Hybrid-search fixture query (keywords `panel`, `brand`, `nedir`). -/
def hyQuery : Str := strOf "panel brand nedir"

/-- The recorded outcomes of a run in which the vector store is unreachable:
the embedding call succeeds and `search_documents` raises. -/
def chromaDownWorld : RagWorld :=
  ⟨.ok (), .error (strOf "Chroma engine unreachable"), .ok [], .ok [], .ok (strOf "ok")⟩

/-! ## Helper lemmas -/

theorem isPrefixOf_append_self (a b : Str) : a.isPrefixOf (a ++ b) = true := by
  induction a with
  | nil => simp [List.isPrefixOf]
  | cons c cs ih => simp [List.isPrefixOf, ih]

theorem subLine_startswith (p : Str × List (Nat × Str)) :
    startsWithStr (strOf "- ") (subLine p) = true := by
  rcases p with ⟨k, vals⟩
  match vals with
  | [] =>
    show (strOf "- ").isPrefixOf (strOf "- " ++ _) = true
    exact isPrefixOf_append_self _ _
  | [(n, cit)] =>
    show (strOf "- ").isPrefixOf (strOf "- " ++ _) = true
    exact isPrefixOf_append_self _ _
  | (n, cit) :: v :: vs =>
    show (strOf "- ").isPrefixOf (strOf "- " ++ _) = true
    exact isPrefixOf_append_self _ _

theorem dictGet_insert_self (d : List (Str × Chunk)) (k : Str) (v : Chunk) :
    dictGet (dictInsert d k v) k = some v := by
  induction d with
  | nil => simp [dictInsert, dictGet]
  | cons p rest ih =>
    rcases p with ⟨k', v'⟩
    by_cases h : k' = k
    · subst h; simp [dictInsert, dictGet]
    · simp [dictInsert, h, dictGet, ih]

theorem dictGet_insert_ne (d : List (Str × Chunk)) (k k' : Str) (v : Chunk) (h : k' ≠ k) :
    dictGet (dictInsert d k v) k' = dictGet d k' := by
  induction d with
  | nil => simp [dictInsert, dictGet, Ne.symm h]
  | cons p rest ih =>
    rcases p with ⟨k0, v0⟩
    by_cases h0 : k0 = k
    · subst h0; simp [dictInsert, dictGet, Ne.symm h]
    · by_cases h1 : k0 = k'
      · subst h1; simp [dictInsert, h0, dictGet]
      · simp [dictInsert, h0, dictGet, h1, ih]

theorem dictKeys_insert (d : List (Str × Chunk)) (k : Str) (v : Chunk) :
    dictKeys (dictInsert d k v) = if k ∈ dictKeys d then dictKeys d else dictKeys d ++ [k] := by
  induction d with
  | nil => simp [dictInsert, dictKeys]
  | cons p rest ih =>
    rcases p with ⟨k0, v0⟩
    by_cases h0 : k0 = k
    · subst h0; simp [dictInsert, dictKeys]
    · simp [dictInsert, h0, dictKeys, Ne.symm h0] at ih ⊢
      rw [ih]
      have h0s : ¬ k = k0 := fun h => h0 h.symm
      by_cases hm : k ∈ List.map (fun p => p.1) rest <;> simp [hm, h0s]

theorem DictWF_insert (d : List (Str × Chunk)) (k : Str) (v : Chunk)
    (hwf : DictWF d) (hid : v.id = k) : DictWF (dictInsert d k v) := by
  rcases hwf with ⟨hnd, hids⟩
  constructor
  · rw [dictKeys_insert]
    by_cases hm : k ∈ dictKeys d <;> simp [hm, hnd]
    simpa [List.nodup_append] using ⟨hnd, hm⟩
  · intro p hp
    induction d with
    | nil => simp [dictInsert] at hp; simp [hp, hid]
    | cons q rest ih =>
      rcases q with ⟨k0, v0⟩
      by_cases h0 : k0 = k
      · subst h0
        simp [dictInsert] at hp
        rcases hp with hp | hp
        · simp [hp, hid]
        · exact hids p (by simp [hp])
      · simp [dictInsert, h0] at hp
        rcases hp with hp | hp
        · exact hids p (by simp [hp])
        · refine ih ?_ ?_ hp
          · simpa [dictKeys] using (List.nodup_cons.mp (by simpa [dictKeys] using hnd)).2
          · intro r hr; exact hids r (by simp [hr])

theorem dictGet_id_of_WF (d : List (Str × Chunk)) (k : Str) (c : Chunk)
    (hwf : DictWF d) (h : dictGet d k = some c) : c.id = k := by
  induction d with
  | nil => simp [dictGet] at h
  | cons p rest ih =>
    rcases p with ⟨k0, v0⟩
    by_cases h0 : k0 = k
    · subst h0
      simp [dictGet] at h
      rw [← h]
      exact hwf.2 (k0, v0) (by simp)
    · simp [dictGet, h0] at h
      have hrest : DictWF rest := by
        constructor
        · have := hwf.1
          rw [dictKeys, List.map_cons, List.nodup_cons] at this
          exact this.2
        · intro r hr; exact hwf.2 r (by simp [hr])
      exact ih hrest h

theorem nodupIds_cons {r : Chunk} {rest : List Chunk}
    (hnd : ((r :: rest).map Chunk.id).Nodup) :
    r.id ∉ rest.map Chunk.id ∧ (rest.map Chunk.id).Nodup := by
  rw [List.map_cons, List.nodup_cons] at hnd
  exact hnd

theorem foldInsert_not_mem (l : List Chunk) (d : List (Str × Chunk)) (k : Str)
    (h : k ∉ l.map Chunk.id) :
    dictGet (l.foldl (fun d r => dictInsert d r.id r) d) k = dictGet d k := by
  induction l generalizing d with
  | nil => rfl
  | cons r rest ih =>
    have h1 : k ≠ r.id := by intro he; exact h (by simp [he])
    have h2 : k ∉ rest.map Chunk.id := by intro hm; exact h (by simp [hm])
    rw [List.foldl_cons, ih _ h2]
    exact dictGet_insert_ne _ _ _ _ h1

theorem foldInsert_mem (l : List Chunk) (d : List (Str × Chunk)) (r : Chunk)
    (hnd : (l.map Chunk.id).Nodup) (hr : r ∈ l) :
    dictGet (l.foldl (fun d r => dictInsert d r.id r) d) r.id = some r := by
  induction l generalizing d with
  | nil => simp at hr
  | cons r0 rest ih =>
    rcases List.mem_cons.mp hr with hcase | hcase
    · subst hcase
      rw [List.foldl_cons, foldInsert_not_mem _ _ _ (nodupIds_cons hnd).1]
      exact dictGet_insert_self _ _ _
    · exact ih _ (nodupIds_cons hnd).2 hcase

theorem foldInsert_WF (l : List Chunk) (d : List (Str × Chunk)) (hwf : DictWF d) :
    DictWF (l.foldl (fun d r => dictInsert d r.id r) d) := by
  induction l generalizing d with
  | nil => exact hwf
  | cons r rest ih => exact ih _ (DictWF_insert _ _ _ hwf rfl)

theorem mergeStep_WF (d : List (Str × Chunk)) (r : Chunk) (hwf : DictWF d) :
    DictWF (mergeStep d r) := by
  unfold mergeStep
  cases hget : dictGet d r.id with
  | none => exact DictWF_insert _ _ _ hwf rfl
  | some v =>
    have : v.id = r.id := dictGet_id_of_WF _ _ _ hwf hget
    exact DictWF_insert _ _ _ hwf this

theorem foldMerge_WF (l : List Chunk) (d : List (Str × Chunk)) (hwf : DictWF d) :
    DictWF (l.foldl mergeStep d) := by
  induction l generalizing d with
  | nil => exact hwf
  | cons r rest ih => exact ih _ (mergeStep_WF _ _ hwf)

theorem foldMerge_not_mem (l : List Chunk) (d : List (Str × Chunk)) (k : Str)
    (h : k ∉ l.map Chunk.id) :
    dictGet (l.foldl mergeStep d) k = dictGet d k := by
  induction l generalizing d with
  | nil => rfl
  | cons r rest ih =>
    have h1 : k ≠ r.id := by intro he; exact h (by simp [he])
    have h2 : k ∉ rest.map Chunk.id := by intro hm; exact h (by simp [hm])
    rw [List.foldl_cons, ih _ h2]
    unfold mergeStep
    cases dictGet d r.id with
    | none => exact dictGet_insert_ne _ _ _ _ h1
    | some v => exact dictGet_insert_ne _ _ _ _ h1

theorem foldMerge_mem_some (l : List Chunk) (d : List (Str × Chunk)) (r : Chunk) (v : Chunk)
    (hnd : (l.map Chunk.id).Nodup) (hr : r ∈ l) (hget : dictGet d r.id = some v) :
    dictGet (l.foldl mergeStep d) r.id =
      some { v with score := v.score + r.score * (3 / 10) } := by
  induction l generalizing d with
  | nil => simp at hr
  | cons r0 rest ih =>
    rcases List.mem_cons.mp hr with hcase | hcase
    · subst hcase
      rw [List.foldl_cons, foldMerge_not_mem _ _ _ (nodupIds_cons hnd).1]
      unfold mergeStep
      rw [hget]
      exact dictGet_insert_self _ _ _
    · rw [List.foldl_cons]
      have hne : r.id ≠ r0.id := by
        intro he
        exact (nodupIds_cons hnd).1 (he ▸ List.mem_map.mpr ⟨r, hcase, rfl⟩)
      refine ih _ (nodupIds_cons hnd).2 hcase ?_
      unfold mergeStep
      cases dictGet d r0.id with
      | none => rw [dictGet_insert_ne _ _ _ _ hne]; exact hget
      | some v0 => rw [dictGet_insert_ne _ _ _ _ hne]; exact hget

theorem foldMerge_mem_none (l : List Chunk) (d : List (Str × Chunk)) (r : Chunk)
    (hnd : (l.map Chunk.id).Nodup) (hr : r ∈ l) (hget : dictGet d r.id = none) :
    dictGet (l.foldl mergeStep d) r.id =
      some { r with score := r.score * (3 / 10) } := by
  induction l generalizing d with
  | nil => simp at hr
  | cons r0 rest ih =>
    rcases List.mem_cons.mp hr with hcase | hcase
    · subst hcase
      rw [List.foldl_cons, foldMerge_not_mem _ _ _ (nodupIds_cons hnd).1]
      unfold mergeStep
      rw [hget]
      exact dictGet_insert_self _ _ _
    · rw [List.foldl_cons]
      have hne : r.id ≠ r0.id := by
        intro he
        exact (nodupIds_cons hnd).1 (he ▸ List.mem_map.mpr ⟨r, hcase, rfl⟩)
      refine ih _ (nodupIds_cons hnd).2 hcase ?_
      unfold mergeStep
      cases dictGet d r0.id with
      | none => rw [dictGet_insert_ne _ _ _ _ hne]; exact hget
      | some v0 => rw [dictGet_insert_ne _ _ _ _ hne]; exact hget

theorem id_mem_keys_of_mem_values (d : List (Str × Chunk)) (c : Chunk)
    (hwf : DictWF d) (h : c ∈ dictValues d) : c.id ∈ dictKeys d := by
  rcases List.mem_map.mp h with ⟨p, hp, rfl⟩
  have : p.2.id = p.1 := hwf.2 p hp
  rw [this]
  exact List.mem_map.mpr ⟨p, hp, rfl⟩

theorem dictWF_tail {p : Str × Chunk} {rest : List (Str × Chunk)}
    (hwf : DictWF (p :: rest)) : DictWF rest := by
  constructor
  · have := hwf.1
    rw [dictKeys, List.map_cons, List.nodup_cons] at this
    exact this.2
  · intro r hr; exact hwf.2 r (by simp [hr])

theorem get_of_mem_values (d : List (Str × Chunk)) (c : Chunk)
    (hwf : DictWF d) (h : c ∈ dictValues d) : dictGet d c.id = some c := by
  induction d with
  | nil => simp [dictValues] at h
  | cons p rest ih =>
    rcases p with ⟨k0, v0⟩
    rcases List.mem_map.mp h with ⟨q, hq, hqc⟩
    rcases List.mem_cons.mp hq with hcase | hcase
    · subst hcase
      have hv : v0 = c := hqc
      have hid : c.id = k0 := by
        rw [← hv]
        exact hwf.2 (k0, v0) (by simp)
      simp [dictGet, hid, hv]
    · have hmem : c ∈ dictValues rest := List.mem_map.mpr ⟨q, hcase, hqc⟩
      have hkey : c.id ∈ dictKeys rest :=
        id_mem_keys_of_mem_values _ _ (dictWF_tail hwf) hmem
      have hne : k0 ≠ c.id := by
        intro he
        have := hwf.1
        rw [dictKeys, List.map_cons, List.nodup_cons] at this
        exact this.1 (he ▸ hkey)
      simp [dictGet, hne]
      exact ih (dictWF_tail hwf) hmem

theorem mem_values_of_get (d : List (Str × Chunk)) (k : Str) (c : Chunk)
    (h : dictGet d k = some c) : c ∈ dictValues d := by
  induction d with
  | nil => simp [dictGet] at h
  | cons p rest ih =>
    rcases p with ⟨k0, v0⟩
    by_cases h0 : k0 = k
    · simp [dictGet, h0] at h
      simp [dictValues, h]
    · simp [dictGet, h0] at h
      simp [dictValues]
      right
      simpa [dictValues] using ih h

theorem mergedDict_WF (v k : List Chunk) : DictWF (mergedDict v k) :=
  foldMerge_WF _ _ (foldInsert_WF _ _ ⟨List.nodup_nil, by intro p hp; simp at hp⟩)

theorem mergedDict_get_both (v k : List Chunk) (cv ck : Chunk)
    (hk : (k.map Chunk.id).Nodup)
    (hcv : cv ∈ v) (hck : ck ∈ k) (heq : ck.id = cv.id)
    (hv : (v.map Chunk.id).Nodup) :
    dictGet (mergedDict v k) cv.id =
      some { cv with score := cv.score + ck.score * (3 / 10) } := by
  have h1 : dictGet (vectorDict v) cv.id = some cv := foldInsert_mem _ _ _ hv hcv
  have := foldMerge_mem_some k (vectorDict v) ck cv hk hck (by rw [heq]; exact h1)
  rw [heq] at this
  exact this

theorem mergedDict_get_veconly (v k : List Chunk) (cv : Chunk)
    (hv : (v.map Chunk.id).Nodup) (hcv : cv ∈ v) (hnk : cv.id ∉ k.map Chunk.id) :
    dictGet (mergedDict v k) cv.id = some cv := by
  unfold mergedDict
  rw [foldMerge_not_mem _ _ _ hnk]
  exact foldInsert_mem _ _ _ hv hcv

theorem mergedDict_get_lexonly (v k : List Chunk) (ck : Chunk)
    (hk : (k.map Chunk.id).Nodup) (hck : ck ∈ k) (hnv : ck.id ∉ v.map Chunk.id) :
    dictGet (mergedDict v k) ck.id =
      some { ck with score := ck.score * (3 / 10) } := by
  have h1 : dictGet (vectorDict v) ck.id = none := by
    unfold vectorDict
    rw [foldInsert_not_mem _ _ _ hnv]
    rfl
  exact foldMerge_mem_none k (vectorDict v) ck hk hck h1

theorem mergedDict_get_none (v k : List Chunk) (i : Str)
    (hnv : i ∉ v.map Chunk.id) (hnk : i ∉ k.map Chunk.id) :
    dictGet (mergedDict v k) i = none := by
  unfold mergedDict vectorDict
  rw [foldMerge_not_mem _ _ _ hnk, foldInsert_not_mem _ _ _ hnv]
  rfl

theorem sorted_sortByScoreDesc (l : List Chunk) :
    List.Sorted byScoreDesc (sortByScoreDesc l) :=
  List.sorted_insertionSort byScoreDesc l

theorem perm_sortByScoreDesc (l : List Chunk) : (sortByScoreDesc l).Perm l :=
  List.perm_insertionSort byScoreDesc l

/-- Every element of the hybrid output is a value of the merged dict, at its
own id. -/
theorem hybrid_out_get (vecRows : List VecRaw) (store : List StoreRec) (top_k : Nat)
    (qt : Str) (hq : qt ≠ []) (c : Chunk)
    (h : c ∈ search_documents vecRows store top_k true qt) :
    dictGet (mergedDict (vecChunks vecRows) (search_documents_keyword store qt (top_k * 2)))
      c.id = some c := by
  unfold search_documents at h
  simp only [hq, true_and, ne_eq, not_false_iff, if_true] at h
  have h1 : c ∈ sortByScoreDesc (dictValues (mergedDict (vecChunks vecRows)
      (search_documents_keyword store qt (top_k * 2)))) := List.take_subset _ _ h
  have h2 : c ∈ dictValues (mergedDict (vecChunks vecRows)
      (search_documents_keyword store qt (top_k * 2))) :=
    (perm_sortByScoreDesc _).subset h1
  exact get_of_mem_values _ _ (mergedDict_WF _ _) h2

/-- Every lexical result's score is `(matches / total) * 0.5` with at least
one match: strictly positive and at most `1/2`. -/
theorem keyword_score_bounds (store : List StoreRec) (qt : Str) (tk : Nat) (r : Chunk)
    (h : r ∈ search_documents_keyword store qt tk) :
    0 < r.score ∧ r.score ≤ 1 / 2 := by
  unfold search_documents_keyword at h
  by_cases hk : extract_keywords qt = []
  · simp [hk] at h
  · simp only [hk, if_neg, if_false] at h
    have h1 : r ∈ sortByScoreDesc _ := List.take_subset _ _ h
    have h2 := (perm_sortByScoreDesc _).subset h1
    rcases List.mem_filterMap.mp h2 with ⟨sr, _, hf⟩
    set kwl := (extract_keywords qt).map pyLower with hkwl
    have hlen : 0 < kwl.length := by
      rw [hkwl, List.length_map]
      exact List.length_pos.mpr hk
    set m := kwl.countP (fun kw => inStr kw (pyLower sr.text)) with hmdef
    by_cases hm : 0 < m
    · rw [if_pos hm] at hf
      have hr := Option.some.inj hf
      have hsc : r.score = ((m : ℚ) / (kwl.length : ℚ)) * (1 / 2) := by
        rw [← hr]
      have hmle : m ≤ kwl.length := List.countP_le_length _
      have hq0 : (0 : ℚ) < (kwl.length : ℚ) := by exact_mod_cast hlen
      have hm0 : (0 : ℚ) < (m : ℚ) := by exact_mod_cast hm
      constructor
      · rw [hsc]; positivity
      · rw [hsc]
        have hdiv : ((m : ℚ) / (kwl.length : ℚ)) ≤ 1 := by
          rw [div_le_one hq0]
          exact_mod_cast hmle
        nlinarith
    · rw [if_neg hm] at hf
      exact absurd hf (by simp)

/-- With distinct store ids, the lexical results carry distinct ids. -/
theorem keyword_ids_nodup (store : List StoreRec) (qt : Str) (tk : Nat)
    (hs : (store.map StoreRec.id).Nodup) :
    ((search_documents_keyword store qt tk).map Chunk.id).Nodup := by
  unfold search_documents_keyword
  by_cases hk : extract_keywords qt = []
  · simp [hk]
  · simp only [hk, if_neg, if_false]
    set kwl := (extract_keywords qt).map pyLower
    set f := fun (sr : StoreRec) =>
      if 0 < kwl.countP (fun kw => inStr kw (pyLower sr.text)) then
        some (⟨sr.id, sr.text, sr.metadata,
          ((kwl.countP (fun kw => inStr kw (pyLower sr.text)) : ℚ) /
            (kwl.length : ℚ)) * (1 / 2)⟩ : Chunk)
      else none with hfdef
    have hsub : ((store.filterMap f).map Chunk.id).Sublist (store.map StoreRec.id) := by
      clear hs
      induction store with
      | nil => simp
      | cons sr rest ih =>
        rw [List.filterMap_cons]
        cases hfs : f sr with
        | none =>
          simp only [List.map_cons]
          exact ih.cons _
        | some c =>
          have hcid : c.id = sr.id := by
            rw [hfdef] at hfs
            by_cases hc : 0 < kwl.countP (fun kw => inStr kw (pyLower sr.text))
            · simp only [hc, if_pos] at hfs
              rw [← Option.some.inj hfs]
            · simp [hc] at hfs
          simp only [List.map_cons, hcid]
          exact ih.cons₂ _
    have hnd1 : ((store.filterMap f).map Chunk.id).Nodup := hs.sublist hsub
    have hperm : (sortByScoreDesc (store.filterMap f)).Perm (store.filterMap f) :=
      perm_sortByScoreDesc _
    have hnd2 : ((sortByScoreDesc (store.filterMap f)).map Chunk.id).Nodup :=
      ((hperm.map Chunk.id).nodup_iff).mpr hnd1
    have htake : (((sortByScoreDesc (store.filterMap f)).take tk).map Chunk.id).Sublist
        ((sortByScoreDesc (store.filterMap f)).map Chunk.id) :=
      (List.take_sublist _ _).map _
    exact hnd2.sublist htake

theorem hyb_both (vecRows : List VecRaw) (store : List StoreRec) (top_k : Nat) (qt : Str)
    (hq : qt ≠ []) (hv : ((vecChunks vecRows).map Chunk.id).Nodup)
    (hs : (store.map StoreRec.id).Nodup) (c cv ck : Chunk)
    (hmem : c ∈ search_documents vecRows store top_k true qt)
    (hcv : cv ∈ vecChunks vecRows) (hck : ck ∈ search_documents_keyword store qt (top_k * 2))
    (heqv : cv.id = c.id) (heqk : ck.id = c.id) :
    c.score = cv.score + ck.score * (3 / 10) := by
  have hget := hybrid_out_get vecRows store top_k qt hq c hmem
  have hboth := mergedDict_get_both (vecChunks vecRows)
    (search_documents_keyword store qt (top_k * 2)) cv ck
    (keyword_ids_nodup store qt (top_k * 2) hs) hcv hck (heqk.trans heqv.symm) hv
  rw [heqv] at hboth
  rw [hget] at hboth
  have := Option.some.inj hboth
  rw [this]

theorem hyb_lexonly (vecRows : List VecRaw) (store : List StoreRec) (top_k : Nat) (qt : Str)
    (hq : qt ≠ []) (hs : (store.map StoreRec.id).Nodup) (c ck : Chunk)
    (hmem : c ∈ search_documents vecRows store top_k true qt)
    (hno : c.id ∉ (vecChunks vecRows).map Chunk.id)
    (hck : ck ∈ search_documents_keyword store qt (top_k * 2)) (heqk : ck.id = c.id) :
    c.score = ck.score * (3 / 10) := by
  have hget := hybrid_out_get vecRows store top_k qt hq c hmem
  have hlex := mergedDict_get_lexonly (vecChunks vecRows)
    (search_documents_keyword store qt (top_k * 2)) ck
    (keyword_ids_nodup store qt (top_k * 2) hs) hck (by rw [heqk]; exact hno)
  rw [heqk] at hlex
  rw [hget] at hlex
  have := Option.some.inj hlex
  rw [this]

theorem hyb_veconly (vecRows : List VecRaw) (store : List StoreRec) (top_k : Nat) (qt : Str)
    (hq : qt ≠ []) (hv : ((vecChunks vecRows).map Chunk.id).Nodup) (c cv : Chunk)
    (hmem : c ∈ search_documents vecRows store top_k true qt)
    (hno : c.id ∉ (search_documents_keyword store qt (top_k * 2)).map Chunk.id)
    (hcv : cv ∈ vecChunks vecRows) (heqv : cv.id = c.id) :
    c = cv := by
  have hget := hybrid_out_get vecRows store top_k qt hq c hmem
  have hvec := mergedDict_get_veconly (vecChunks vecRows)
    (search_documents_keyword store qt (top_k * 2)) cv hv hcv (by rw [heqv]; exact hno)
  rw [heqv] at hvec
  rw [hget] at hvec
  exact Option.some.inj hvec

/-- A chunk of the hybrid output whose id is not among the vector ids is
keyword-only: its final score is at most `3/20 = 0.15` (and positive). -/
theorem hyb_lexonly_cap (vecRows : List VecRaw) (store : List StoreRec) (top_k : Nat) (qt : Str)
    (hq : qt ≠ []) (hs : (store.map StoreRec.id).Nodup) (c : Chunk)
    (hmem : c ∈ search_documents vecRows store top_k true qt)
    (hno : c.id ∉ (vecChunks vecRows).map Chunk.id) :
    0 < c.score ∧ c.score ≤ 3 / 20 := by
  have hget := hybrid_out_get vecRows store top_k qt hq c hmem
  by_cases hkm : c.id ∈ (search_documents_keyword store qt (top_k * 2)).map Chunk.id
  · rcases List.mem_map.mp hkm with ⟨ck, hck, heqk⟩
    have hsc := hyb_lexonly vecRows store top_k qt hq hs c ck hmem hno hck heqk
    have hb := keyword_score_bounds store qt (top_k * 2) ck hck
    constructor
    · rw [hsc]; nlinarith [hb.1]
    · rw [hsc]; nlinarith [hb.2]
  · rw [mergedDict_get_none _ _ _ hno hkm] at hget
    exact absurd hget (by simp)

/-- A chunk of the hybrid output matched by some vector row scores at least
that row's similarity. -/
theorem hyb_vec_lower (vecRows : List VecRaw) (store : List StoreRec) (top_k : Nat) (qt : Str)
    (hq : qt ≠ []) (hv : ((vecChunks vecRows).map Chunk.id).Nodup)
    (hs : (store.map StoreRec.id).Nodup) (c cv : Chunk)
    (hmem : c ∈ search_documents vecRows store top_k true qt)
    (hcv : cv ∈ vecChunks vecRows) (heqv : cv.id = c.id) :
    cv.score ≤ c.score := by
  by_cases hkm : c.id ∈ (search_documents_keyword store qt (top_k * 2)).map Chunk.id
  · rcases List.mem_map.mp hkm with ⟨ck, hck, heqk⟩
    have hsc := hyb_both vecRows store top_k qt hq hv hs c cv ck hmem hcv hck heqv heqk
    have hb := keyword_score_bounds store qt (top_k * 2) ck hck
    nlinarith [hb.1]
  · rw [hyb_veconly vecRows store top_k qt hq hv c cv hmem hkm hcv heqv]

theorem hybrid_sorted (vecRows : List VecRaw) (store : List StoreRec) (top_k : Nat) (qt : Str)
    (hq : qt ≠ []) :
    List.Sorted byScoreDesc (search_documents vecRows store top_k true qt) := by
  unfold search_documents
  simp only [hq, true_and, ne_eq, not_false_iff, if_true]
  exact (sorted_sortByScoreDesc _).sublist (List.take_sublist _ _)

/-- **C2.** In every hybrid search (hybrid mode, non-empty query text, with
distinct ids in the vector rows and in the store snapshot), the merged set is
keyed by chunk id and each returned result scores: `vector + lexical * 0.3`
when its id is in both lists, `lexical * 0.3` when lexical-only, and the
unmodified vector similarity when vector-only; the output is sorted
descending by score and truncated to `top_k`. -/
theorem C2_hybrid_merge (vecRows : List VecRaw) (store : List StoreRec) (top_k : Nat) (qt : Str)
    (hq : qt ≠ [])
    (hv : ((vecChunks vecRows).map Chunk.id).Nodup)
    (hs : (store.map StoreRec.id).Nodup) :
    (∀ c ∈ search_documents vecRows store top_k true qt,
      ∀ cv ∈ vecChunks vecRows, ∀ ck ∈ search_documents_keyword store qt (top_k * 2),
        cv.id = c.id → ck.id = c.id → c.score = cv.score + ck.score * (3 / 10)) ∧
    (∀ c ∈ search_documents vecRows store top_k true qt,
      c.id ∉ (vecChunks vecRows).map Chunk.id →
      ∀ ck ∈ search_documents_keyword store qt (top_k * 2), ck.id = c.id →
        c.score = ck.score * (3 / 10)) ∧
    (∀ c ∈ search_documents vecRows store top_k true qt,
      c.id ∉ (search_documents_keyword store qt (top_k * 2)).map Chunk.id →
      ∀ cv ∈ vecChunks vecRows, cv.id = c.id → c.score = cv.score) ∧
    List.Sorted byScoreDesc (search_documents vecRows store top_k true qt) ∧
    (search_documents vecRows store top_k true qt).length ≤ top_k := by
  refine ⟨?_, ?_, ?_, hybrid_sorted vecRows store top_k qt hq, ?_⟩
  · intro c hc cv hcv ck hck heqv heqk
    exact hyb_both vecRows store top_k qt hq hv hs c cv ck hc hcv hck heqv heqk
  · intro c hc hno ck hck heqk
    exact hyb_lexonly vecRows store top_k qt hq hs c ck hc hno hck heqk
  · intro c hc hno cv hcv heqv
    rw [hyb_veconly vecRows store top_k qt hq hv c cv hc hno hcv heqv]
  · unfold search_documents
    simp only [hq, true_and, ne_eq, not_false_iff, if_true]
    exact List.length_take_le _ _


/-- Concrete evaluation of the lexical search on the fixture store. -/
theorem kwEval : search_documents_keyword [hyS1, hyS3] hyQuery 10 =
    [⟨strOf "x1", strOf "Panel Brand: Jinko solar module", {}, (1 : ℚ) / 3⟩,
     ⟨strOf "x3", strOf "brand of the panel", {}, (1 : ℚ) / 3⟩] := by
  have h1 : extract_keywords hyQuery = [strOf "panel", strOf "brand", strOf "nedir"] := by decide
  have h3 : List.countP (fun kw => inStr kw (pyLower (strOf "Panel Brand: Jinko solar module")))
      (List.map pyLower [strOf "panel", strOf "brand", strOf "nedir"]) = 2 := by decide
  have h4 : List.countP (fun kw => inStr kw (pyLower (strOf "brand of the panel")))
      (List.map pyLower [strOf "panel", strOf "brand", strOf "nedir"]) = 2 := by decide
  unfold search_documents_keyword
  rw [h1]
  rw [if_neg (by decide)]
  simp only [hyS1, hyS3, List.filterMap_cons, List.filterMap_nil]
  rw [h3, h4]
  rw [if_pos (by norm_num), if_pos (by norm_num)]
  simp only [List.length_map, List.length_cons, List.length_nil]
  norm_num [sortByScoreDesc, List.insertionSort, List.orderedInsert, byScoreDesc]

/-- Concrete evaluation of the vector-row conversion on the fixture. -/
theorem vecEval : vecChunks [hyV1] =
    [⟨strOf "x1", strOf "Panel Brand: Jinko solar module", {}, (4 : ℚ) / 5⟩] := by
  norm_num [vecChunks, hyV1]

/-- Concrete evaluation of the hybrid search on the fixtures: the chunk in
both lists gets `4/5 + (1/3) * 0.3 = 9/10`, the lexical-only chunk gets
`(1/3) * 0.3 = 1/10`. -/
theorem outEval : search_documents [hyV1] [hyS1, hyS3] 5 true hyQuery =
    [⟨strOf "x1", strOf "Panel Brand: Jinko solar module", {}, (9 : ℚ) / 10⟩,
     ⟨strOf "x3", strOf "brand of the panel", {}, (1 : ℚ) / 10⟩] := by
  unfold search_documents
  rw [if_pos (by exact ⟨rfl, by decide⟩)]
  rw [show (5 : Nat) * 2 = 10 from rfl, kwEval]
  rw [show vecChunks [hyV1] =
    [⟨strOf "x1", strOf "Panel Brand: Jinko solar module", {}, (4 : ℚ) / 5⟩] from vecEval]
  simp only [mergedDict, vectorDict, List.foldl_cons, List.foldl_nil, mergeStep,
    dictInsert, dictGet, dictValues]
  norm_num [sortByScoreDesc, List.insertionSort, List.orderedInsert, byScoreDesc]

/-! ## Claim theorems -/

/-- **C1.** For the query `"toplam inverter sayısı kaç"` and candidates whose
structured `DATA` rows contain no explicit total-labelled inverter row and
give Substations 1, 2, 3 exactly one count each (27, 30, 97), the
deterministic aggregator returns an answer carrying the total `154` and the
inline calculation `"27 + 30 + 97"`; and in general, whenever the two query
gates hold, no explicit total row is found, at least two distinct substations
are parsed and some substation has two or more (conflicting) deduplicated
counts, the returned answer is exactly the per-substation breakdown lines
(each starting with `"- "`) followed by the ambiguity caveat — so no total is
asserted. -/
theorem C1_aggregate_total_and_ambiguity :
    (∃ ans, try_answer_total_inverters (strOf "toplam inverter sayısı kaç")
        [aggChunk1, aggChunk2, aggChunk3] = some (ans, some (strOf "TD.docx")) ∧
      inStr (strOf "Toplam inverter sayısı: 154") ans = true ∧
      inStr (strOf "27 + 30 + 97") ans = true) ∧
    (∀ (q : Str) (items : List Chunk),
      containsWordAlt [strOf "inverter", strOf "inverte"] (pyLower q) = true →
      containsWordAlt [strOf "kaç", strOf "kac", strOf "how many", strOf "toplam",
        strOf "total"] (pyLower q) = true →
      total_row_answer items = none →
      2 ≤ (dedup_per_sub (collect_per_sub items)).length →
      (∃ p ∈ dedup_per_sub (collect_per_sub items), 2 ≤ p.2.length) →
      try_answer_total_inverters q items =
        some (joinStr (strOf "\n")
          ((sortSubs (dedup_per_sub (collect_per_sub items))).map subLine ++ [ambiguityNote]),
          agg_source items) ∧
      ∀ l ∈ (sortSubs (dedup_per_sub (collect_per_sub items))).map subLine,
        startsWithStr (strOf "- ") l = true) := by
  constructor
  · exact ⟨_, rfl, by decide, by decide⟩
  · intro q items h1 h2 h3 h4 h5
    constructor
    · unfold try_answer_total_inverters
      rw [h3]
      have hlt : ¬ (dedup_per_sub (collect_per_sub items)).length < 2 := by omega
      have hall : (dedup_per_sub (collect_per_sub items)).all
          (fun p => p.2.length = 1) = false := by
        rcases h5 with ⟨p, hp, hlen⟩
        rw [List.all_eq_false]
        exact ⟨p, hp, by simp; omega⟩
      simp [h1, h2, hlt, hall]
    · intro l hl
      rcases List.mem_map.mp hl with ⟨p, _, rfl⟩
      exact subLine_startswith p

/-- Witness for C1: the three-substation scenario discharges the closed part,
and the conflicting list `[aggChunk1, aggChunk2, aggChunk1b]` (Substation 1
reported as both 27 and 31) discharges every hypothesis of the general part,
producing the breakdown-plus-caveat answer. -/
theorem C1_aggregate_total_and_ambiguity_witness :
    try_answer_total_inverters (strOf "toplam inverter sayısı kaç")
      [aggChunk1, aggChunk2, aggChunk1b] =
      some (joinStr (strOf "\n")
        ((sortSubs (dedup_per_sub (collect_per_sub [aggChunk1, aggChunk2, aggChunk1b]))).map subLine ++
          [ambiguityNote]),
        agg_source [aggChunk1, aggChunk2, aggChunk1b]) :=
  (C1_aggregate_total_and_ambiguity.2 (strOf "toplam inverter sayısı kaç")
    [aggChunk1, aggChunk2, aggChunk1b] (by decide) (by decide) (by decide) (by decide)
    ⟨(strOf "Substation 1", [(27, strOf "[Kaynak: TD.docx]"), (31, strOf "[Kaynak: TD2.docx]")]),
      by decide, by decide⟩).1

/-- **C7.** The deterministic aggregator never mis-triggers: whenever the
query does not contain both a word-bounded countable-entity term
(`inverter`/`inverte`) and a word-bounded counting term
(`kaç`/`kac`/`how many`/`toplam`/`total`), `_try_answer_total_inverters`
returns `none` for every candidate list. -/
theorem C7_aggregator_dual_gate (q : Str) (items : List Chunk)
    (h : ¬(containsWordAlt [strOf "inverter", strOf "inverte"] (pyLower q) = true ∧
      containsWordAlt [strOf "kaç", strOf "kac", strOf "how many", strOf "toplam",
        strOf "total"] (pyLower q) = true)) :
    try_answer_total_inverters q items = none := by
  unfold try_answer_total_inverters
  rcases Decidable.not_and_iff_or_not.mp h with h1 | h1 <;>
    simp [Bool.not_eq_true] at h1 <;> simp [h1]

/-- Witness for C7: an unrelated query falls through even with parseable
substation rows present. -/
theorem C7_aggregator_dual_gate_witness :
    ¬(containsWordAlt [strOf "inverter", strOf "inverte"]
        (pyLower (strOf "What is the minimum trench depth?")) = true ∧
      containsWordAlt [strOf "kaç", strOf "kac", strOf "how many", strOf "toplam",
        strOf "total"] (pyLower (strOf "What is the minimum trench depth?")) = true) ∧
    try_answer_total_inverters (strOf "What is the minimum trench depth?")
      [aggChunk1, aggChunk2, aggChunk3] = none :=
  ⟨by decide, C7_aggregator_dual_gate _ _ (by decide)⟩

/-- **C10.** When the explicit-total scan finds nothing and fewer than two
distinct substations are parsed from the candidates, the aggregator returns
`none` for every query: a single substation never yields a total or a
breakdown. -/
theorem C10_aggregator_needs_two_substations (q : Str) (items : List Chunk)
    (h1 : total_row_answer items = none)
    (h2 : (dedup_per_sub (collect_per_sub items)).length < 2) :
    try_answer_total_inverters q items = none := by
  unfold try_answer_total_inverters
  rw [h1]
  by_cases g1 : containsWordAlt [strOf "inverter", strOf "inverte"] (pyLower q) = true
  · by_cases g2 : containsWordAlt [strOf "kaç", strOf "kac", strOf "how many", strOf "toplam",
        strOf "total"] (pyLower q) = true
    · simp [g1, g2, h2]
    · simp [Bool.not_eq_true] at g2; simp [g2]
  · simp [Bool.not_eq_true] at g1; simp [g1]

/-- Witness for C10: a counting query over a single-substation candidate list
(gates hold, one substation parsed) yields `none`. -/
theorem C10_aggregator_needs_two_substations_witness :
    total_row_answer [aggChunk1] = none ∧
    (dedup_per_sub (collect_per_sub [aggChunk1])).length < 2 ∧
    try_answer_total_inverters (strOf "toplam inverter sayısı kaç") [aggChunk1] = none :=
  ⟨by decide, by decide,
    C10_aggregator_needs_two_substations _ _ (by decide) (by decide)⟩

/-- **C6.** Chunk selection: an empty candidate list selects nothing, and
when the effective keyword set (extracted keywords plus raw-token additions,
deduplicated) is empty, the selection is exactly the first `max_chunks`
candidates in input order — no boosting, filtering or reordering. -/
theorem C6_select_chunks_fallback (q : Str) (items : List Chunk) (mx pref : Nat) :
    (items = [] → select_chunks q items mx pref = []) ∧
    ((effective_keywords q).uniq = [] → select_chunks q items mx pref = items.take mx) := by
  constructor
  · intro h; subst h; rfl
  · intro h
    by_cases hi : items = []
    · subst hi; simp [select_chunks]
    · unfold select_chunks
      simp [hi, h]

/-- Witness for C6: the stop-word query `"is it"` extracts no keywords and no
raw tokens survive the short-token filter, so the first `max_chunks`
candidates are returned as-is; and the empty list gives the empty
selection. -/
theorem C6_select_chunks_fallback_witness :
    ((effective_keywords (strOf "is it")).uniq = [] ∧
      select_chunks (strOf "is it") [aggChunk1, aggChunk2, aggChunk3] 25 15 =
        [aggChunk1, aggChunk2, aggChunk3]) ∧
    select_chunks (strOf "is it") ([] : List Chunk) 25 15 = [] := by
  refine ⟨⟨by decide, ?_⟩, (C6_select_chunks_fallback (strOf "is it") [] 25 15).1 rfl⟩
  have := (C6_select_chunks_fallback (strOf "is it") [aggChunk1, aggChunk2, aggChunk3] 25 15).2
    (by decide)
  simpa using this

/-- **C5** (documents the code bug).  When `search_documents` raises because
the engine is unreachable, `process_rag_query` does *not* catch the failure:
the exception propagates out of the function (first conjunct), the route's
catch-all turns it into an HTTP 500 `"Internal server error: ..."` (second
conjunct), and no structured `{answer, source}` result — in particular not
the fallback answer — is returned (third conjunct).  This contradicts the
claimed degrade-to-no-results behaviour. -/
theorem C5_search_error_propagates :
    process_rag_query (strOf "What is the panel brand?") chromaDownWorld =
      .error (strOf "Chroma engine unreachable") ∧
    router_query (process_rag_query (strOf "What is the panel brand?") chromaDownWorld) =
      .httpError 500 (strOf "Internal server error: Chroma engine unreachable") ∧
    ∀ ans src, process_rag_query (strOf "What is the panel brand?") chromaDownWorld ≠
      .ok (ans, src) := by
  refine ⟨rfl, rfl, ?_⟩
  intro ans src h
  exact Except.noConfusion h
/-- **C8.** In every hybrid search, a chunk present in both the vector and
the lexical result lists has merged score at least its vector-only
similarity: the lexical agreement adds `lexical_score * 0.3 > 0`, never a
penalty. -/
theorem C8_both_lists_boost (vecRows : List VecRaw) (store : List StoreRec) (top_k : Nat)
    (qt : Str) (hq : qt ≠ [])
    (hv : ((vecChunks vecRows).map Chunk.id).Nodup)
    (hs : (store.map StoreRec.id).Nodup) :
    ∀ c ∈ search_documents vecRows store top_k true qt,
      ∀ cv ∈ vecChunks vecRows, ∀ ck ∈ search_documents_keyword store qt (top_k * 2),
        cv.id = c.id → ck.id = c.id → cv.score ≤ c.score := by
  intro c hc cv hcv ck hck heqv heqk
  have hsc := hyb_both vecRows store top_k qt hq hv hs c cv ck hc hcv hck heqv heqk
  have hb := keyword_score_bounds store qt (top_k * 2) ck hck
  nlinarith [hb.1]

/-- Witness for C8: on the fixtures, chunk `x1` (similarity `4/5`, lexical
score `1/3`) ends at `9/10 ≥ 4/5`. -/
theorem C8_both_lists_boost_witness :
    (⟨strOf "x1", strOf "Panel Brand: Jinko solar module", {}, (4 : ℚ) / 5⟩ : Chunk).score ≤
      (⟨strOf "x1", strOf "Panel Brand: Jinko solar module", {}, (9 : ℚ) / 10⟩ : Chunk).score :=
  C8_both_lists_boost [hyV1] [hyS1, hyS3] 5 hyQuery (by decide) (by decide) (by decide)
    ⟨strOf "x1", strOf "Panel Brand: Jinko solar module", {}, (9 : ℚ) / 10⟩
    (by rw [outEval]; exact List.mem_cons_self _ _)
    ⟨strOf "x1", strOf "Panel Brand: Jinko solar module", {}, (4 : ℚ) / 5⟩
    (by rw [vecEval]; exact List.mem_cons_self _ _)
    ⟨strOf "x1", strOf "Panel Brand: Jinko solar module", {}, (1 : ℚ) / 3⟩
    (by rw [show (5 : Nat) * 2 = 10 from rfl, kwEval]; exact List.mem_cons_self _ _)
    rfl rfl

/-- **C9.** Every lexical result's score lies in `(0, 1/2]`; a lexical-only
chunk therefore enters the merge with final score in `(0, 3/20]`; and in the
sorted hybrid output a lexical-only chunk never precedes (never outranks) a
chunk backed by a vector row of similarity above `3/20 = 0.15`. -/
theorem C9_lexical_bounds (vecRows : List VecRaw) (store : List StoreRec) (top_k tk : Nat)
    (qt : Str) (hq : qt ≠ [])
    (hv : ((vecChunks vecRows).map Chunk.id).Nodup)
    (hs : (store.map StoreRec.id).Nodup) :
    (∀ r ∈ search_documents_keyword store qt tk, 0 < r.score ∧ r.score ≤ 1 / 2) ∧
    (∀ c ∈ search_documents vecRows store top_k true qt,
      c.id ∉ (vecChunks vecRows).map Chunk.id → 0 < c.score ∧ c.score ≤ 3 / 20) ∧
    (∀ (i j : Fin (search_documents vecRows store top_k true qt).length),
      ((search_documents vecRows store top_k true qt).get i).id ∉
        (vecChunks vecRows).map Chunk.id →
      (∃ cv ∈ vecChunks vecRows,
        cv.id = ((search_documents vecRows store top_k true qt).get j).id ∧
        3 / 20 < cv.score) →
      (j : Nat) < (i : Nat)) := by
  refine ⟨fun r hr => keyword_score_bounds store qt tk r hr,
    fun c hc hno => hyb_lexonly_cap vecRows store top_k qt hq hs c hc hno, ?_⟩
  intro i j hno hex
  rcases hex with ⟨cv, hcv, heq, hgt⟩
  have hmemi : (search_documents vecRows store top_k true qt).get i ∈
      search_documents vecRows store top_k true qt := List.get_mem _ _ _
  have hmemj : (search_documents vecRows store top_k true qt).get j ∈
      search_documents vecRows store top_k true qt := List.get_mem _ _ _
  have hcap := hyb_lexonly_cap vecRows store top_k qt hq hs _ hmemi hno
  have hlow := hyb_vec_lower vecRows store top_k qt hq hv hs _ cv hmemj hcv heq
  by_contra hcon
  push_neg at hcon
  rcases Nat.lt_or_ge (i : Nat) (j : Nat) with hlt | hge
  · have hsorted := hybrid_sorted vecRows store top_k qt hq
    have hpair := List.pairwise_iff_get.mp hsorted i j hlt
    have hscore : ((search_documents vecRows store top_k true qt).get j).score ≤
        ((search_documents vecRows store top_k true qt).get i).score := hpair
    nlinarith [hcap.2, hlow, hgt]
  · have hij : (i : Nat) = (j : Nat) := le_antisymm (by omega) hge
    have hideq : (search_documents vecRows store top_k true qt).get i =
        (search_documents vecRows store top_k true qt).get j := by
      congr 1
      exact Fin.ext hij
    apply hno
    rw [hideq, ← heq]
    exact List.mem_map.mpr ⟨cv, hcv, rfl⟩

/-- Witness for C9: the fixture's lexical results score `1/3 ∈ (0, 1/2]` and
the lexical-only output chunk scores `1/10 ∈ (0, 3/20]`. -/
theorem C9_lexical_bounds_witness :
    (0 < ((1 : ℚ) / 3) ∧ ((1 : ℚ) / 3) ≤ 1 / 2) ∧
    (0 < ((1 : ℚ) / 10) ∧ ((1 : ℚ) / 10) ≤ 3 / 20) :=
  ⟨(C9_lexical_bounds [hyV1] [hyS1, hyS3] 5 10 hyQuery (by decide) (by decide) (by decide)).1
      ⟨strOf "x3", strOf "brand of the panel", {}, (1 : ℚ) / 3⟩
      (by rw [kwEval]; exact List.mem_cons_of_mem _ (List.mem_cons_self _ _)),
    (C9_lexical_bounds [hyV1] [hyS1, hyS3] 5 10 hyQuery (by decide) (by decide) (by decide)).2.1
      ⟨strOf "x3", strOf "brand of the panel", {}, (1 : ℚ) / 10⟩
      (by rw [outEval]; exact List.mem_cons_of_mem _ (List.mem_cons_self _ _))
      (by decide)⟩

/-- Witness for C2: the fixture hybrid search output is sorted descending
and within the `top_k` bound. -/
theorem C2_hybrid_merge_witness :
    List.Sorted byScoreDesc (search_documents [hyV1] [hyS1, hyS3] 5 true hyQuery) ∧
    (search_documents [hyV1] [hyS1, hyS3] 5 true hyQuery).length ≤ 5 :=
  (C2_hybrid_merge [hyV1] [hyS1, hyS3] 5 hyQuery (by decide) (by decide) (by decide)).2.2.2

theorem ciMatches_append_true (tag r w : Str) (h : ciMatches tag r = true) :
    ciMatches tag (r ++ w) = true := by
  induction tag generalizing r with
  | nil => rfl
  | cons p ps ih =>
    cases r with
    | nil => simp [ciMatches] at h
    | cons c cs =>
      simp only [ciMatches, Bool.and_eq_true] at h
      simp only [List.cons_append, ciMatches, Bool.and_eq_true]
      exact ⟨h.1, ih cs h.2⟩

theorem ciMatches_space_stuck (tag w X : Str) (hsp : ' ' ∉ tag)
    (hX : X.head? = some ' ') (h : ciMatches tag (w ++ X) = true) :
    ciMatches tag w = true := by
  induction tag generalizing w with
  | nil => rfl
  | cons p ps ih =>
    cases w with
    | nil =>
      cases X with
      | nil => simp at hX
      | cons x xs =>
        simp at hX
        subst hX
        simp only [List.nil_append, ciMatches, Bool.and_eq_true] at h
        have h1 := h.1
        simp [lowerChar] at h1
        exact absurd (h1 ▸ List.mem_cons_self p ps) hsp
    | cons c cs =>
      simp only [List.cons_append, ciMatches, Bool.and_eq_true] at h
      simp only [ciMatches, Bool.and_eq_true]
      exact ⟨h.1, ih cs (fun hm => hsp (List.mem_cons_of_mem _ hm)) h.2⟩

theorem hasCite_append_left (u w : Str) (h : hasCiteBracket u = true) :
    hasCiteBracket (u ++ w) = true := by
  induction u with
  | nil => simp [hasCiteBracket] at h
  | cons c rest ih =>
    simp only [hasCiteBracket, Bool.or_eq_true, Bool.and_eq_true, Bool.or_eq_true] at h
    simp only [List.cons_append, hasCiteBracket, Bool.or_eq_true, Bool.and_eq_true]
    rcases h with ⟨hc, htag⟩ | h
    · left
      refine ⟨hc, ?_⟩
      rcases htag with ht | ht
      · exact Or.inl (ciMatches_append_true _ _ _ ht)
      · exact Or.inr (ciMatches_append_true _ _ _ ht)
    · exact Or.inr (ih h)

theorem hasCite_append_right (u w : Str) (h : hasCiteBracket w = true) :
    hasCiteBracket (u ++ w) = true := by
  induction u with
  | nil => simpa using h
  | cons c rest ih =>
    simp only [List.cons_append, hasCiteBracket, Bool.or_eq_true]
    exact Or.inr ih

theorem tagSpace : (' ' ∉ strOf "source:") ∧ (' ' ∉ strOf "kaynak:") := by decide

theorem hasCite_cons_false {c : Char} {rest : Str}
    (h : hasCiteBracket (c :: rest) = false) :
    (c = '[' → ciMatches (strOf "source:") rest = false ∧
      ciMatches (strOf "kaynak:") rest = false) ∧ hasCiteBracket rest = false := by
  simp only [hasCiteBracket, Bool.or_eq_false_iff, Bool.and_eq_false_iff] at h
  refine ⟨?_, h.2⟩
  intro hc
  rcases h.1 with hfalse | htags
  · exact absurd hc (by simpa using hfalse)
  · simpa using htags

theorem mcite_none_of_no_bracket (s : Str) (h : hasCiteBracket s = false) :
    mCiteAux s = none := by
  induction s with
  | nil => rfl
  | cons c rest ih =>
    have hc := hasCite_cons_false h
    unfold mCiteAux
    by_cases hbr : c = '['
    · rw [if_neg (by simp [hbr, (hc.1 hbr).1, (hc.1 hbr).2])]
      simpa [Option.orElse] using ih hc.2
    · rw [if_neg (by simp [hbr])]
      simpa [Option.orElse] using ih hc.2

theorem mcite_skip (ans X : Str) (hans : hasCiteBracket ans = false)
    (hX : X.head? = some ' ') : mCiteAux (ans ++ X) = mCiteAux X := by
  induction ans with
  | nil => rfl
  | cons c rest ih =>
    have hc := hasCite_cons_false hans
    have hstep : mCiteAux (c :: (rest ++ X)) = mCiteAux (rest ++ X) := by
      by_cases hbr : c = '['
      · have h2 : ciMatches (strOf "kaynak:") (rest ++ X) = false := by
          cases hm : ciMatches (strOf "kaynak:") (rest ++ X)
          · rfl
          · exact absurd (ciMatches_space_stuck _ _ _ tagSpace.2 hX hm) (by simp [(hc.1 hbr).2])
        have h1b : ciMatches (strOf "source:") (rest ++ X) = false := by
          cases hm : ciMatches (strOf "source:") (rest ++ X)
          · rfl
          · exact absurd (ciMatches_space_stuck _ _ _ tagSpace.1 hX hm) (by simp [(hc.1 hbr).1])
        simp only [mCiteAux]
        rw [if_neg (by simp [h1b, h2])]
        rfl
      · simp only [mCiteAux]
        rw [if_neg (by simp [hbr])]
        rfl
    rw [List.cons_append, hstep, ih hc.2]

theorem dropWhile_suffix (p : Char → Bool) (l : Str) : l.dropWhile p <:+ l := by
  induction l with
  | nil => simp
  | cons c rest ih =>
    by_cases h : p c
    · rw [List.dropWhile_cons_of_pos h]
      exact ih.trans (List.suffix_cons c rest)
    · rw [List.dropWhile_cons_of_neg h]

theorem rstrip_pref (s : Str) : rstripStr s <+: s := by
  unfold rstripStr
  have h := dropWhile_suffix isSpaceChar s.reverse
  rcases h with ⟨u, hu⟩
  refine ⟨u.reverse, ?_⟩
  have := congrArg List.reverse hu
  simpa [List.reverse_append] using this

theorem strip_sublist (s : Str) : stripStr s <:+: s := by
  unfold stripStr lstripStr
  exact ((dropWhile_suffix isSpaceChar (rstripStr s)).isInfix).trans (rstrip_pref s).isInfix

theorem lstrip_head_nonspace (s : Str) (c : Char)
    (h : (lstripStr s).head? = some c) : isSpaceChar c = false := by
  unfold lstripStr at h
  induction s with
  | nil => simp at h
  | cons d rest ih =>
    by_cases hd : isSpaceChar d
    · rw [List.dropWhile_cons_of_pos hd] at h
      exact ih h
    · rw [List.dropWhile_cons_of_neg hd] at h
      simp at h
      rw [← h]
      simpa using hd

theorem strip_head_nonspace (s : Str) (c : Char)
    (h : (stripStr s).head? = some c) : isSpaceChar c = false :=
  lstrip_head_nonspace _ _ h

theorem infix_drop_last (l x : Str) (c : Char) (h : l <:+: x ++ [c]) (hc : c ∉ l) :
    l <:+: x := by
  rcases h with ⟨u, v, huv⟩
  rcases List.eq_nil_or_concat v with rfl | ⟨v', c', rfl⟩
  · rcases List.eq_nil_or_concat l with rfl | ⟨l', d, rfl⟩
    · exact List.nil_infix
    · rw [List.concat_eq_append] at hc huv
      simp only [List.append_nil] at huv
      rw [← List.append_assoc] at huv
      have h2 := List.append_inj' huv (by simp)
      have hd : d = c := by simpa using h2.2
      subst hd
      exact absurd (by simp) hc
  · rw [List.concat_eq_append] at huv
    have h1 : (u ++ l ++ v') ++ [c'] = x ++ [c] := by
      rw [← huv]
      simp [List.append_assoc]
    have h2 : u ++ l ++ v' = x ∧ c' = c := by
      have := List.append_inj' h1 (by simp)
      simpa using this
    exact ⟨u, v', h2.1⟩

theorem infix_cons_head (l s : Str) (c : Char) (h : l <:+: c :: s) :
    l <:+: s ∨ l = [] ∨ l.head? = some c := by
  rcases h with ⟨u, v, huv⟩
  cases u with
  | nil =>
    cases l with
    | nil => exact Or.inr (Or.inl rfl)
    | cons d l' =>
      simp only [List.nil_append, List.cons_append, List.cons.injEq] at huv
      exact Or.inr (Or.inr (by simp [huv.1]))
  | cons c' u' =>
    simp only [List.cons_append, List.cons.injEq] at huv
    exact Or.inl ⟨u', v, huv.2⟩

theorem inStr_of_infix (l s : Str) (h : l <:+: s) : inStr l s = true := by
  rcases List.infix_iff_prefix_suffix.mp h with ⟨t, hpre, hsuf⟩
  unfold inStr
  rw [List.any_eq_true]
  exact ⟨t, (List.mem_tails _ _).mpr hsuf, List.isPrefixOf_iff_prefix.mpr hpre⟩

theorem findGroupDown_eq_groupAt (t : Str) (n : Nat) (g : Str)
    (h : findGroupDown t n = some g) : ∃ w, w ≤ n ∧ groupAt t w = some g := by
  induction n with
  | zero => exact ⟨0, le_refl 0, h⟩
  | succ n ih =>
    unfold findGroupDown at h
    cases hg : groupAt t (n + 1) with
    | some g0 =>
      rw [hg] at h
      simp [Option.orElse] at h
      exact ⟨n + 1, le_refl _, by rw [hg, h]⟩
    | none =>
      rw [hg] at h
      simp [Option.orElse] at h
      obtain ⟨w, hw, hgw⟩ := ih h
      exact ⟨w, Nat.le_succ_of_le hw, hgw⟩

theorem findGroupDown_isSome_of_zero (t : Str) (n : Nat) (g0 : Str)
    (h : groupAt t 0 = some g0) : ∃ g, findGroupDown t n = some g := by
  induction n with
  | zero => exact ⟨g0, h⟩
  | succ n ih =>
    unfold findGroupDown
    cases hg : groupAt t (n + 1) with
    | some g1 => exact ⟨g1, by simp [Option.orElse]⟩
    | none =>
      obtain ⟨g, hgd⟩ := ih
      exact ⟨g, by simp [Option.orElse, hgd]⟩

theorem groupAt_some_props (t : Str) (w : Nat) (g : Str) (h : groupAt t w = some g) :
    g <:+: t ∧ ∀ a ∈ g, isCiteClass a = true := by
  unfold groupAt at h
  cases hd : (t.drop w).head? with
  | none => rw [hd] at h; simp at h
  | some c =>
    rw [hd] at h
    dsimp only at h
    by_cases hc : isCiteClass c
    · rw [if_pos hc] at h
      simp at h
      constructor
      · rw [← h]
        exact ((List.takeWhile_prefix _).isInfix).trans (List.drop_suffix w t).isInfix
      · intro a ha
        rw [← h] at ha
        exact List.mem_takeWhile_imp ha
    · rw [if_neg hc] at h
      simp at h

theorem citeGroup_junction (S0 : Str) :
    ∃ g, citeGroup (' ' :: (S0 ++ [']'])) = some g ∧
      (stripStr g = [] ∨ inStr (stripStr g) S0 = true) := by
  have h0 : groupAt (' ' :: (S0 ++ [']'])) 0 =
      some ((' ' :: (S0 ++ [']'])).takeWhile isCiteClass) := by
    unfold groupAt
    simp [isCiteClass]
  obtain ⟨g, hg⟩ := findGroupDown_isSome_of_zero _
    ((' ' :: (S0 ++ [']'])).takeWhile isSpaceChar).length _ h0
  refine ⟨g, hg, ?_⟩
  obtain ⟨w, _, hgw⟩ := findGroupDown_eq_groupAt _ _ _ hg
  have hprops := groupAt_some_props _ _ _ hgw
  have hbr : ']' ∉ g := by
    intro hm
    have := hprops.2 _ hm
    simp [isCiteClass] at this
  have hginf : g <:+: (' ' :: S0) := by
    have h1 : g <:+: (' ' :: S0) ++ [']'] := by simpa using hprops.1
    exact infix_drop_last _ _ _ h1 hbr
  have hsinf : stripStr g <:+: (' ' :: S0) := (strip_sublist g).trans hginf
  cases hs : (stripStr g).head? with
  | none => left; exact List.head?_eq_none_iff.mp hs
  | some c =>
    have hcs : isSpaceChar c = false := strip_head_nonspace _ _ hs
    rcases infix_cons_head _ _ _ hsinf with hinf | hnil | hhead
    · right; exact inStr_of_infix _ _ hinf
    · left; exact hnil
    · rw [hs] at hhead
      have : c = ' ' := by simpa using hhead
      rw [this] at hcs
      simp [isSpaceChar] at hcs

theorem mcite_junction (ans S0 : Str) (hans : hasCiteBracket ans = false) :
    ∃ g, mCiteAux (ans ++ (strOf " [Kaynak: " ++ (S0 ++ [']']))) = some g ∧
      (stripStr g = [] ∨ inStr (stripStr g) S0 = true) := by
  obtain ⟨g, hg, hp⟩ := citeGroup_junction S0
  refine ⟨g, ?_, hp⟩
  rw [mcite_skip ans (strOf " [Kaynak: " ++ (S0 ++ [']'])) hans (by rfl)]
  rw [show strOf " [Kaynak: " ++ (S0 ++ [']']) =
    ' ' :: ('[' :: (strOf "Kaynak: " ++ (S0 ++ [']']))) from rfl]
  have hcm : ciMatches (strOf "kaynak:") (strOf "Kaynak: " ++ (S0 ++ [']'])) = true :=
    ciMatches_append_true _ _ _ (by decide)
  have hstep1 : mCiteAux (' ' :: ('[' :: (strOf "Kaynak: " ++ (S0 ++ [']'])))) =
      mCiteAux ('[' :: (strOf "Kaynak: " ++ (S0 ++ [']']))) := by
    simp only [mCiteAux]
    rw [if_neg (by simp)]
    rfl
  rw [hstep1]
  simp only [mCiteAux]
  rw [if_pos (by simp [hcm])]
  rw [show (strOf "Kaynak: " ++ (S0 ++ [']'])).drop 7 = ' ' :: (S0 ++ [']']) from rfl]
  rw [show citeGroup (' ' :: (S0 ++ [']'])) = findGroupDown (' ' :: (S0 ++ [']']))
    ((' ' :: (S0 ++ [']'])).takeWhile isSpaceChar).length from rfl] at hg
  unfold citeGroup
  rw [hg]
  rfl

theorem wordHit_of_occurrence (alts : List Str) (p u v : Str) (b : Bool)
    (hp : p ∈ alts) (hpne : p ≠ [])
    (hu : match u.getLast? with
          | none => b = true
          | some c => isWordChar c = false)
    (hv : boundaryHead v = true) :
    wordHitAux alts b (u ++ p ++ v) = true := by
  induction u generalizing b with
  | nil =>
    cases p with
    | nil => exact absurd rfl hpne
    | cons pc prest =>
      simp only [List.nil_append, List.cons_append, wordHitAux, Bool.or_eq_true]
      left
      unfold altHitAt
      rw [hu]
      simp only [Bool.true_and, List.any_eq_true]
      refine ⟨pc :: prest, hp, ?_⟩
      rw [Bool.and_eq_true]
      constructor
      · exact isPrefixOf_append_self (pc :: prest) v
      · show boundaryHead (List.drop (pc :: prest).length ((pc :: prest) ++ v)) = true
        rw [List.drop_left]
        exact hv
  | cons c u' ih =>
    simp only [List.cons_append, wordHitAux, Bool.or_eq_true]
    right
    apply ih
    cases u' with
    | nil =>
      simp only [List.getLast?_singleton] at hu
      simp only [List.getLast?_nil]
      simp [hu]
    | cons d u'' =>
      have : (c :: d :: u'').getLast? = (d :: u'').getLast? := by
        simp [List.getLast?_cons_cons]
      rw [this] at hu
      exact hu

theorem startsWith_fb_phraseHit (b : Bool) (s : Str)
    (h : startsWithStr (pyLower (get_fallback_message b)) s = true) :
    containsWordAlt fallbackPhrases s = true := by
  rcases List.isPrefixOf_iff_prefix.mp h with ⟨t, ht⟩
  cases b
  · have hsplit : pyLower (get_fallback_message false) =
        (strOf "i " ++ strOf "cannot find") ++
          strOf " this information in the provided records/documents." := by decide
    rw [← ht, hsplit]
    unfold containsWordAlt
    rw [List.append_assoc]
    apply wordHit_of_occurrence
    · decide
    · decide
    · show isWordChar ' ' = false
      decide
    · rfl
  · have hsplit : pyLower (get_fallback_message true) =
        (strOf "bu bilgiyi mevcut kayıtlarda/belgelerde " ++ strOf "bulamıyorum") ++
          strOf "." := by decide
    rw [← ht, hsplit]
    unfold containsWordAlt
    rw [List.append_assoc]
    apply wordHit_of_occurrence
    · decide
    · decide
    · show isWordChar ' ' = false
      decide
    · rfl

theorem lstrip_append (a b : Str) :
    lstripStr (a ++ b) = if lstripStr a = [] then lstripStr b else lstripStr a ++ b := by
  induction a with
  | nil => simp [lstripStr]
  | cons c rest ih =>
    by_cases hc : isSpaceChar c
    · simp only [lstripStr, List.cons_append, List.dropWhile_cons_of_pos hc] at ih ⊢
      exact ih
    · simp only [lstripStr, List.cons_append, List.dropWhile_cons_of_neg hc]
      simp

theorem rstrip_concat_nonspace (x : Str) (c : Char) (hc : isSpaceChar c = false) :
    rstripStr (x ++ [c]) = x ++ [c] := by
  unfold rstripStr
  rw [List.reverse_append, List.reverse_singleton, List.singleton_append,
    List.dropWhile_cons_of_neg (show ¬ isSpaceChar c = true by simp [hc])]
  simp

theorem lstrip_eq_self_of_head (s : Str) (c : Char) (h : s.head? = some c)
    (hc : isSpaceChar c = false) : lstripStr s = s := by
  cases s with
  | nil => rfl
  | cons d rest =>
    simp at h
    subst h
    unfold lstripStr
    rw [List.dropWhile_cons_of_neg (by simp [hc])]

theorem pyLower_append (a b : Str) : pyLower (a ++ b) = pyLower a ++ pyLower b := by
  unfold pyLower
  induction a with
  | nil => rfl
  | cons c rest ih => simp [List.flatMap_cons, ih]

theorem stripStr_junction (ans Y : Str) (hY : Y.getLast? = some ']') :
    stripStr (rstripStr ans ++ Y) =
      if stripStr ans = [] then lstripStr Y else stripStr ans ++ Y := by
  have h1 : rstripStr (rstripStr ans ++ Y) = rstripStr ans ++ Y := by
    rcases List.eq_nil_or_concat Y with rfl | ⟨Y', c, rfl⟩
    · simp at hY
    · rw [List.concat_eq_append] at hY ⊢
      rw [← List.append_assoc]
      apply rstrip_concat_nonspace
      have : c = ']' := by simpa [List.getLast?_concat] using hY
      simp [this, isSpaceChar]
  unfold stripStr
  rw [h1, lstrip_append]

theorem not_startswith_junction (fb A rest : Str)
    (hbr : '[' ∉ fb) (hlast : fb.getLast? ≠ some ' ')
    (hA : startsWithStr fb A = false) :
    startsWithStr fb (A ++ ' ' :: '[' :: rest) = false := by
  cases hsw : startsWithStr fb (A ++ ' ' :: '[' :: rest) with
  | false => rfl
  | true =>
    exfalso
    have hpre := List.isPrefixOf_iff_prefix.mp hsw
    have htake := List.prefix_iff_eq_take.mp hpre
    rw [List.take_append_eq_append_take] at htake
    by_cases h1 : fb.length ≤ A.length
    · have hz : fb.length - A.length = 0 := by omega
      rw [hz] at htake
      simp only [List.take_zero, List.append_nil] at htake
      have hfa : fb <+: A := htake ▸ List.take_prefix fb.length A
      have h5 : startsWithStr fb A = true := List.isPrefixOf_iff_prefix.mpr hfa
      rw [hA] at h5
      exact Bool.noConfusion h5
    · push_neg at h1
      rw [List.take_of_length_le (by omega)] at htake
      by_cases h2 : fb.length - A.length = 1
      · rw [h2] at htake
        simp only [List.take_succ_cons, List.take_zero] at htake
        rw [htake] at hlast
        exact hlast (by simp)
      · obtain ⟨k, hk⟩ : ∃ k, fb.length - A.length = k + 2 :=
          ⟨fb.length - A.length - 2, by omega⟩
        rw [hk] at htake
        simp only [List.take_succ_cons] at htake
        apply hbr
        rw [htake]
        simp

theorem fbFacts (lang : Bool) :
    phraseHit (get_fallback_message lang) = true ∧
    mCiteAux (get_fallback_message lang) = none ∧
    hasCiteBracket (get_fallback_message lang) = false ∧
    rstripStr (get_fallback_message lang) = get_fallback_message lang ∧
    stripStr (get_fallback_message lang) = get_fallback_message lang ∧
    (startsWithStr (pyLower (get_fallback_message true))
        (pyLower (stripStr (get_fallback_message lang))) ||
      startsWithStr (pyLower (get_fallback_message false))
        (pyLower (stripStr (get_fallback_message lang)))) = true := by
  cases lang
  · exact ⟨by decide, by decide, by decide, by decide, by decide, by decide⟩
  · exact ⟨by decide, by decide, by decide, by decide, by decide, by decide⟩

theorem pp_phrasehit_eval (lang : Bool) (sel rel : List Chunk) (answer : Str)
    (hph : phraseHit answer = true) (primary : Chunk)
    (hp : (match sel with | q :: _ => some q | [] => rel.head?) = some primary) :
    post_process lang sel rel answer =
      some (if fallbackDocNames sel = [] then (get_fallback_message lang, none)
        else (rstripStr (get_fallback_message lang) ++ strOf " [Kaynak: " ++
            joinStr (strOf ", ") (fallbackDocNames sel) ++ [']'],
          some (joinStr (strOf ", ") (fallbackDocNames sel)))) := by
  obtain ⟨f1, f2, f3, f4, f5, f6⟩ := fbFacts lang
  unfold post_process
  rw [hp]
  simp only [hph, if_true, ite_true, f2, f6]
  by_cases hds : fallbackDocNames sel = []
  · simp [hds]
  · simp only [hds, ite_false, if_neg]
    simp [f3, hds]

theorem pp_nofb_eval (lang : Bool) (sel rel : List Chunk) (answer : Str)
    (hph : phraseHit answer = false) (primary : Chunk)
    (hp : (match sel with | q :: _ => some q | [] => rel.head?) = some primary) :
    post_process lang sel rel answer =
      some (if answer ≠ [] ∧ !hasCiteBracket answer then
          (rstripStr answer ++ strOf " [Kaynak: " ++ ppSource primary answer ++ [']'],
            some (ppSource primary answer))
        else (answer, some (ppSource primary answer))) := by
  have hfb : ∀ b : Bool,
      startsWithStr (pyLower (get_fallback_message b)) (pyLower (stripStr answer)) = false := by
    intro b
    cases hsw : startsWithStr (pyLower (get_fallback_message b)) (pyLower (stripStr answer)) with
    | false => rfl
    | true =>
      have := startsWith_fb_phraseHit b _ hsw
      rw [phraseHit] at hph
      rw [this] at hph
      exact Bool.noConfusion hph
  unfold post_process
  rw [hp]
  simp only [hph, ite_false, if_false, Bool.false_eq_true, hfb true, hfb false,
    Bool.or_self, ppSource]
  split <;> rfl

theorem hasCite_rstrip (s : Str) (h : hasCiteBracket s = false) :
    hasCiteBracket (rstripStr s) = false := by
  cases hc : hasCiteBracket (rstripStr s) with
  | false => rfl
  | true =>
    obtain ⟨t, ht⟩ := rstrip_pref s
    rw [← ht, hasCite_append_left _ _ hc] at h
    exact Bool.noConfusion h

theorem hasCite_kaynak_append (u sl : Str) :
    hasCiteBracket (u ++ strOf " [Kaynak: " ++ sl ++ [']']) = true := by
  have h1 : hasCiteBracket (strOf " [Kaynak: ") = true := by decide
  have h2 := hasCite_append_left (u ++ strOf " [Kaynak: ") (sl ++ [']'])
    (hasCite_append_right u _ h1)
  simpa [List.append_assoc] using h2

theorem phraseHit_fb_append (lang : Bool) (sl : Str) :
    phraseHit (rstripStr (get_fallback_message lang) ++ strOf " [Kaynak: " ++
      sl ++ [']']) = true := by
  obtain ⟨f1, f2, f3, f4, f5, f6⟩ := fbFacts lang
  have hY : (strOf " [Kaynak: " ++ (sl ++ [']'])).getLast? = some ']' := by
    rw [show strOf " [Kaynak: " ++ (sl ++ [']']) =
      (strOf " [Kaynak: " ++ sl) ++ [']'] by simp [List.append_assoc]]
    exact List.getLast?_concat _
  have hshape : rstripStr (get_fallback_message lang) ++ strOf " [Kaynak: " ++
      sl ++ [']'] =
      rstripStr (get_fallback_message lang) ++ (strOf " [Kaynak: " ++ (sl ++ [']'])) := by
    simp [List.append_assoc]
  rw [phraseHit, hshape, stripStr_junction _ _ hY, f5]
  have hne : ¬(get_fallback_message lang = []) := by cases lang <;> decide
  rw [if_neg hne, pyLower_append]
  cases lang
  · have hsplit : pyLower (get_fallback_message false) =
        strOf "i " ++ strOf "cannot find" ++
          strOf " this information in the provided records/documents." := by decide
    rw [hsplit]
    have h := wordHit_of_occurrence fallbackPhrases (strOf "cannot find") (strOf "i ")
      (strOf " this information in the provided records/documents." ++
        pyLower (strOf " [Kaynak: " ++ (sl ++ [']'])))
      true (by decide) (by decide) (show isWordChar ' ' = false by decide) (by rfl)
    simpa [containsWordAlt, List.append_assoc] using h
  · have hsplit : pyLower (get_fallback_message true) =
        strOf "bu bilgiyi mevcut kayıtlarda/belgelerde " ++ strOf "bulamıyorum" ++
          strOf "." := by decide
    rw [hsplit]
    have h := wordHit_of_occurrence fallbackPhrases (strOf "bulamıyorum")
      (strOf "bu bilgiyi mevcut kayıtlarda/belgelerde ")
      (strOf "." ++ pyLower (strOf " [Kaynak: " ++ (sl ++ [']'])))
      true (by decide) (by decide) (show isWordChar ' ' = false by decide) (by rfl)
    simpa [containsWordAlt, List.append_assoc] using h

/-- C3: the post-processing stage is idempotent provided rule 1 classifies its
output as fallback only when it classified the input as fallback (the amended
side condition); re-running the stage on the pair it produced returns the same
pair, and in particular no second citation bracket is appended. -/
theorem C3_postprocess_idempotent (lang : Bool) (sel rel : List Chunk) (answer : Str)
    (out : Str × Option Str)
    (hout : post_process lang sel rel answer = some out)
    (H : phraseHit out.1 = true → phraseHit answer = true) :
    post_process lang sel rel out.1 = some out := by
  cases hpick : (match sel with | q :: _ => some q | [] => rel.head?) with
  | none =>
    unfold post_process at hout
    rw [hpick] at hout
    simp at hout
  | some primary =>
    by_cases hph : phraseHit answer = true
    · have h1 := pp_phrasehit_eval lang sel rel answer hph primary hpick
      rw [h1] at hout
      have hout2 := Option.some.inj hout
      by_cases hds : fallbackDocNames sel = []
      · rw [if_pos hds] at hout2
        subst hout2
        have h2 := pp_phrasehit_eval lang sel rel (get_fallback_message lang)
          (fbFacts lang).1 primary hpick
        show post_process lang sel rel (get_fallback_message lang) = _
        rw [h2, if_pos hds]
      · rw [if_neg hds] at hout2
        subst hout2
        have hph2 := phraseHit_fb_append lang (joinStr (strOf ", ") (fallbackDocNames sel))
        have h2 := pp_phrasehit_eval lang sel rel _ hph2 primary hpick
        show post_process lang sel rel (rstripStr (get_fallback_message lang) ++
          strOf " [Kaynak: " ++ joinStr (strOf ", ") (fallbackDocNames sel) ++ [']']) = _
        rw [h2, if_neg hds]
    · have hphF : phraseHit answer = false := by
        revert hph; cases phraseHit answer <;> simp
      have h1 := pp_nofb_eval lang sel rel answer hphF primary hpick
      rw [h1] at hout
      have hout2 := Option.some.inj hout
      by_cases hcond : answer ≠ [] ∧ (!hasCiteBracket answer) = true
      · rw [if_pos hcond] at hout2
        subst hout2
        obtain ⟨hne, hnb⟩ := hcond
        have hnb' : hasCiteBracket answer = false := by simpa using hnb
        have hm : mCiteAux answer = none := mcite_none_of_no_bracket answer hnb'
        have hS1 : ppSource primary answer = computeSource primary.metadata := by
          rw [ppSource, hm]
        have hph2 : phraseHit (rstripStr answer ++ strOf " [Kaynak: " ++
            ppSource primary answer ++ [']']) = false := by
          cases hx : phraseHit (rstripStr answer ++ strOf " [Kaynak: " ++
            ppSource primary answer ++ [']']) with
          | false => rfl
          | true =>
            have hcon := H hx
            rw [hcon] at hphF
            exact Bool.noConfusion hphF
        have h2 := pp_nofb_eval lang sel rel _ hph2 primary hpick
        show post_process lang sel rel (rstripStr answer ++ strOf " [Kaynak: " ++
          ppSource primary answer ++ [']']) = _
        rw [h2]
        have hbr : hasCiteBracket (rstripStr answer ++ strOf " [Kaynak: " ++
            ppSource primary answer ++ [']']) = true := hasCite_kaynak_append _ _
        rw [if_neg (fun hc => by rw [hbr] at hc; exact Bool.noConfusion hc.2)]
        obtain ⟨g, hg, hgor⟩ := mcite_junction (rstripStr answer)
          (computeSource primary.metadata) (hasCite_rstrip answer hnb')
        have hshape : rstripStr answer ++ strOf " [Kaynak: " ++
            ppSource primary answer ++ [']'] =
            rstripStr answer ++ (strOf " [Kaynak: " ++
              (computeSource primary.metadata ++ [']'])) := by
          rw [hS1]; simp [List.append_assoc]
        have hps : ppSource primary (rstripStr answer ++ strOf " [Kaynak: " ++
            ppSource primary answer ++ [']']) = computeSource primary.metadata := by
          rw [ppSource, hshape, hg]
          rcases hgor with h | h
          · simp [h]
          · simp [h]
        rw [hps, hS1]
      · rw [if_neg hcond] at hout2
        subst hout2
        show post_process lang sel rel answer = _
        rw [h1, if_neg hcond]

/-- C3 counterexample: for a selection whose document name itself contains a
fallback phrase, the stage is not idempotent: the citation it appends makes
rule 1 reclassify its own output as fallback, and the second run rewrites the
pair.  This refutes unconditional idempotence and the round-trip stability of
the fallback classification. -/
theorem C3_postprocess_not_idempotent :
    post_process false [ppChunk] [] (strOf "The brand is Jinko.") = some ceOut ∧
      post_process false [ppChunk] [] ceOut.1 ≠ some ceOut :=
  ⟨by decide, by decide⟩

theorem C3_postprocess_idempotent_witness :
    post_process false [w3Chunk] [] (strOf "The brand is Jinko.") = some w3Out ∧
      post_process false [w3Chunk] [] w3Out.1 = some w3Out :=
  ⟨by decide, C3_postprocess_idempotent false [w3Chunk] [] (strOf "The brand is Jinko.")
    w3Out (by decide) (by decide)⟩

theorem fdnStep_facts (l : List Chunk) (acc : List Str) (hnd : acc.Nodup) :
    (List.foldl fdnStep acc l).Nodup ∧
    (List.foldl fdnStep acc l).length ≤ acc.length + l.length ∧
    ∀ d ∈ List.foldl fdnStep acc l,
      d ∈ acc ∨ ∃ r, r ∈ l ∧ r.metadata.doc_name = some d := by
  induction l generalizing acc with
  | nil => exact ⟨hnd, by simp, fun d hd => Or.inl hd⟩
  | cons c cs ih =>
    have hstep : (fdnStep acc c).Nodup ∧ (fdnStep acc c).length ≤ acc.length + 1 ∧
        ∀ d ∈ fdnStep acc c, d ∈ acc ∨ c.metadata.doc_name = some d := by
      cases hdn : c.metadata.doc_name with
      | none =>
        simp only [fdnStep, hdn]
        exact ⟨hnd, Nat.le_succ _, fun d hd => Or.inl hd⟩
      | some dn =>
        by_cases hc : dn ≠ [] ∧ ¬ dn ∈ acc
        · simp only [fdnStep, hdn, if_pos hc]
          refine ⟨?_, by simp, ?_⟩
          · simpa [List.nodup_append] using ⟨hnd, fun h => hc.2 h⟩
          · intro d hd
            rcases List.mem_append.mp hd with h | h
            · exact Or.inl h
            · simp at h
              subst h
              exact Or.inr rfl
        · simp only [fdnStep, hdn, if_neg hc]
          exact ⟨hnd, Nat.le_succ _, fun d hd => Or.inl hd⟩
    obtain ⟨h1, h2, h3⟩ := ih (fdnStep acc c) hstep.1
    rw [List.foldl_cons]
    refine ⟨h1, ?_, ?_⟩
    · have := hstep.2.1
      simp only [List.length_cons]
      omega
    · intro d hd
      rcases h3 d hd with h | ⟨r, hr, hrd⟩
      · rcases hstep.2.2 d h with h' | h'
        · exact Or.inl h'
        · exact Or.inr ⟨c, List.mem_cons_self _ _, h'⟩
      · exact Or.inr ⟨r, List.mem_cons_of_mem _ hr, hrd⟩

theorem fallbackDocNames_facts (sel : List Chunk) :
    (fallbackDocNames sel).length ≤ 5 ∧ (fallbackDocNames sel).Nodup ∧
    ∀ d ∈ fallbackDocNames sel, ∃ r, r ∈ sel.take 5 ∧ r.metadata.doc_name = some d := by
  obtain ⟨h1, h2, h3⟩ := fdnStep_facts (sel.take 5) [] List.nodup_nil
  refine ⟨?_, h1, ?_⟩
  · have hlt : (sel.take 5).length ≤ 5 := by
      simp [List.length_take_le]
    calc (fallbackDocNames sel).length ≤ 0 + (sel.take 5).length := h2
    _ ≤ 5 := by omega
  · intro d hd
    rcases h3 d hd with h | h
    · simp at h
    · exact h

theorem nofb_startswith (b : Bool) (answer : Str) (hph : phraseHit answer = false) :
    startsWithStr (pyLower (get_fallback_message b)) (pyLower (stripStr answer)) = false := by
  cases hsw : startsWithStr (pyLower (get_fallback_message b)) (pyLower (stripStr answer)) with
  | false => rfl
  | true =>
    have h := startsWith_fb_phraseHit b _ hsw
    rw [phraseHit] at hph
    rw [h] at hph
    exact Bool.noConfusion hph

theorem nofb_startswith_append (b : Bool) (answer S1 : Str)
    (hph : phraseHit answer = false) :
    startsWithStr (pyLower (get_fallback_message b))
      (pyLower (stripStr (rstripStr answer ++ strOf " [Kaynak: " ++
        S1 ++ [']']))) = false := by
  have hbr : '[' ∉ pyLower (get_fallback_message b) := by cases b <;> decide
  have hlast : (pyLower (get_fallback_message b)).getLast? ≠ some ' ' := by
    cases b <;> decide
  have hY : (strOf " [Kaynak: " ++ (S1 ++ [']'])).getLast? = some ']' := by
    rw [show strOf " [Kaynak: " ++ (S1 ++ [']']) =
      (strOf " [Kaynak: " ++ S1) ++ [']'] by simp [List.append_assoc]]
    exact List.getLast?_concat _
  have hshape : rstripStr answer ++ strOf " [Kaynak: " ++ S1 ++ [']'] =
      rstripStr answer ++ (strOf " [Kaynak: " ++ (S1 ++ [']'])) := by
    simp [List.append_assoc]
  rw [hshape, stripStr_junction _ _ hY]
  by_cases hz : stripStr answer = []
  · rw [if_pos hz]
    have h1 : lstripStr (strOf " [Kaynak: " ++ (S1 ++ [']'])) =
        '[' :: (strOf "Kaynak: " ++ (S1 ++ [']'])) := rfl
    have h2 : pyLower ('[' :: (strOf "Kaynak: " ++ (S1 ++ [']']))) =
        '[' :: pyLower (strOf "Kaynak: " ++ (S1 ++ [']'])) := rfl
    rw [h1, h2]
    cases b
    · rfl
    · rfl
  · rw [if_neg hz, pyLower_append]
    have h2 : pyLower (strOf " [Kaynak: " ++ (S1 ++ [']'])) =
        ' ' :: '[' :: pyLower (strOf "Kaynak: " ++ (S1 ++ [']'])) := rfl
    rw [h2]
    exact not_startswith_junction _ _ _ hbr hlast (nofb_startswith b answer hph)

/-- C4: whenever the post-processed answer is classified as a fallback (after
strip and lower it starts with the canonical fallback message of either
language), the returned source is either `none` or the comma-joined fallback
document list: at most five distinct names, each the document name of one of
the first five selected chunks — never a page- or sheet-qualified single
source string. -/
theorem C4_fallback_source_list (lang : Bool) (sel rel : List Chunk) (answer : Str)
    (out : Str × Option Str)
    (hout : post_process lang sel rel answer = some out)
    (hfb : (startsWithStr (pyLower (get_fallback_message true))
        (pyLower (stripStr out.1)) ||
      startsWithStr (pyLower (get_fallback_message false))
        (pyLower (stripStr out.1))) = true) :
    (out.2 = none ∨ out.2 = some (joinStr (strOf ", ") (fallbackDocNames sel))) ∧
    (fallbackDocNames sel).length ≤ 5 ∧ (fallbackDocNames sel).Nodup ∧
    ∀ d ∈ fallbackDocNames sel, ∃ r, r ∈ sel.take 5 ∧
      r.metadata.doc_name = some d := by
  obtain ⟨hlen, hnd, hmem⟩ := fallbackDocNames_facts sel
  refine ⟨?_, hlen, hnd, hmem⟩
  cases hpick : (match sel with | q :: _ => some q | [] => rel.head?) with
  | none =>
    unfold post_process at hout
    rw [hpick] at hout
    simp at hout
  | some primary =>
    by_cases hph : phraseHit answer = true
    · have h1 := pp_phrasehit_eval lang sel rel answer hph primary hpick
      rw [h1] at hout
      have hout2 := Option.some.inj hout
      by_cases hds : fallbackDocNames sel = []
      · rw [if_pos hds] at hout2
        subst hout2
        exact Or.inl rfl
      · rw [if_neg hds] at hout2
        subst hout2
        exact Or.inr rfl
    · exfalso
      have hphF : phraseHit answer = false := by
        revert hph; cases phraseHit answer <;> simp
      have h1 := pp_nofb_eval lang sel rel answer hphF primary hpick
      rw [h1] at hout
      have hout2 := Option.some.inj hout
      by_cases hcond : answer ≠ [] ∧ (!hasCiteBracket answer) = true
      · rw [if_pos hcond] at hout2
        subst hout2
        dsimp only at hfb
        rw [nofb_startswith_append true answer (ppSource primary answer) hphF,
          nofb_startswith_append false answer (ppSource primary answer) hphF] at hfb
        exact Bool.noConfusion hfb
      · rw [if_neg hcond] at hout2
        subst hout2
        dsimp only at hfb
        rw [nofb_startswith true answer hphF, nofb_startswith false answer hphF] at hfb
        exact Bool.noConfusion hfb

theorem C4_fallback_source_list_witness :
    (w4Out.2 = none ∨ w4Out.2 = some (joinStr (strOf ", ") (fallbackDocNames [w3Chunk]))) ∧
    (fallbackDocNames [w3Chunk]).length ≤ 5 ∧ (fallbackDocNames [w3Chunk]).Nodup ∧
    ∀ d ∈ fallbackDocNames [w3Chunk], ∃ r, r ∈ ([w3Chunk]).take 5 ∧
      r.metadata.doc_name = some d :=
  C4_fallback_source_list false [w3Chunk] [] (strOf "I cannot find it.") w4Out
    (by decide) (by decide)
